import Mathlib

/-!
Verification of the crop-region manager and crop-job command builder of
`cropgui_common.py` (cropgui).  All machine integers in the source are
Python arbitrary-precision integers, modelled by `Int`; Python's floor
division `//` (and arithmetic right shift `>>`) is `Int.fdiv`.  Pixel
coordinates, dimensions and rounding granularities are integers
throughout the modelled code paths.
-/

namespace Cropgui

/-- Drag-kind constants, `cropgui_common.py` lines 36-41:
`DRAG_NONE, DRAG_TL, DRAG_T, DRAG_TR, DRAG_L, DRAG_C, DRAG_R, DRAG_BL,
DRAG_B, DRAG_BR = list(range(10))`. -/
def DRAG_NONE : Int := 0

/-- Drag kind: top-left corner handle. -/
def DRAG_TL : Int := 1

/-- Drag kind: top edge handle. -/
def DRAG_T : Int := 2

/-- Drag kind: top-right corner handle. -/
def DRAG_TR : Int := 3

/-- Drag kind: left edge handle. -/
def DRAG_L : Int := 4

/-- Drag kind: center (move the whole rectangle). -/
def DRAG_C : Int := 5

/-- Drag kind: right edge handle. -/
def DRAG_R : Int := 6

/-- Drag kind: bottom-left corner handle. -/
def DRAG_BL : Int := 7

/-- Drag kind: bottom edge handle. -/
def DRAG_B : Int := 8

/-- Drag kind: bottom-right corner handle. -/
def DRAG_BR : Int := 9

/-- The mutable numeric state of `DragManagerBase` (lines 189-202), restricted
to the fields the modelled operations read and write: the displayed (rotated)
image dimensions `w`, `h`, the per-axis rounding granularities `round_x`,
`round_y`, the EXIF-style rotation code `_rotation`, the crop rectangle
`top, left, right, bottom`, and the previous-image snapshot fields
`prev_*` maintained by `save_prev_crop` (lines 204-210).  (The source's
`__init__`, line 202, has a typo `self.prev_left = self=prev_right = 0`
which leaves `prev_right` uninitialised; the structure models a state in
which every field holds a value.)  Pillow image/bitmap fields and the
render buffers are outside the modelled fragment. -/
structure Mgr where
  w : Int
  h : Int
  round_x : Int
  round_y : Int
  rotation : Int
  top : Int
  left : Int
  right : Int
  bottom : Int
  prev_w : Int
  prev_h : Int
  prev_top : Int
  prev_bottom : Int
  prev_left : Int
  prev_right : Int
deriving Repr, DecidableEq

/-- `DragManagerBase.fix` (lines 249-267).  `a, b = sorted((int(a), int(b)))`;
if `reverse`, the anchored edge becomes
`lim - (((lim - a) + r - 1) // r) * r`, with one granularity step added back
when that value is negative; otherwise it becomes `(a // r) * r`.
Python's `//` is floor division, i.e. `Int.fdiv`. -/
def fix (a b lim r : Int) (reverse : Bool) : Int × Int :=
  let lo := min a b
  let hi := max a b
  if reverse then
    let s := lim - (((lim - lo) + r - 1).fdiv r) * r
    (if s < 0 then s + r else s, hi)
  else
    ((lo.fdiv r) * r, hi)

/-- `DragManagerBase.set_crop` (lines 313-316): align the vertical axis with
`fix(top, bottom, h, round_y, rotation in (3, 8))` and the horizontal axis
with `fix(left, right, w, round_x, rotation in (3, 6))`, then store the
results.  (`self.render()` is display-only and not modelled.) -/
def set_crop (m : Mgr) (top left right bottom : Int) : Mgr :=
  { m with
    top := (fix top bottom m.h m.round_y (m.rotation == 3 || m.rotation == 8)).1
    bottom := (fix top bottom m.h m.round_y (m.rotation == 3 || m.rotation == 8)).2
    left := (fix left right m.w m.round_x (m.rotation == 3 || m.rotation == 6)).1
    right := (fix left right m.w m.round_x (m.rotation == 3 || m.rotation == 6)).2 }

/-- `DragManagerBase.image_or_rotation_changed` (lines 232-247), restricted to
the crop-rectangle recomputation: if `w == 0 or w != prev_w or h != prev_h`
the rectangle is reset to the full aligned bounds via `fix`, otherwise the
previous rectangle is reused as-is.  (The Pillow image recomputation and the
blurred/xor render buffers are display-only and not modelled.) -/
def image_or_rotation_changed (m : Mgr) : Mgr :=
  if m.w = 0 ∨ m.w ≠ m.prev_w ∨ m.h ≠ m.prev_h then
    { m with
      top := (fix 0 m.h m.h m.round_y (m.rotation == 3 || m.rotation == 8)).1
      bottom := (fix 0 m.h m.h m.round_y (m.rotation == 3 || m.rotation == 8)).2
      left := (fix 0 m.w m.w m.round_x (m.rotation == 3 || m.rotation == 6)).1
      right := (fix 0 m.w m.w m.round_x (m.rotation == 3 || m.rotation == 6)).2 }
  else
    { m with
      top := m.prev_top
      bottom := m.prev_bottom
      left := m.prev_left
      right := m.prev_right }

/-- `DragManagerBase.set_rotation` (lines 481-487): raise
`ValueError('Unsupported rotation %r' % rotation)` for a rotation outside
`(1, 3, 6, 8)`; otherwise store the rotation and run
`image_or_rotation_changed`.  The raise happens before any mutation, so the
error branch returns no new state: the caller's manager is untouched. -/
def set_rotation (m : Mgr) (rotation : Int) : Except String Mgr :=
  if rotation = 1 ∨ rotation = 3 ∨ rotation = 6 ∨ rotation = 8 then
    .ok (image_or_rotation_changed { m with rotation := rotation })
  else
    .error ("Unsupported rotation " ++ toString rotation)

/-- `DragManagerBase._flip_dimensions` (lines 457-459): swap `w` with `h` and
`round_x` with `round_y`. -/
def _flip_dimensions (m : Mgr) : Mgr :=
  { m with w := m.h, h := m.w, round_x := m.round_y, round_y := m.round_x }

/-- The clockwise rotation-code successor used by `rotate_cw`
(lines 472-476): `1 -> 6 -> 3 -> 8 -> 1`; any other code is left unchanged
(no `elif` matches). -/
def cwNext (r : Int) : Int :=
  if r = 1 then 6 else if r = 6 then 3 else if r = 3 then 8 else if r = 8 then 1 else r

/-- `DragManagerBase.rotate_cw` (lines 470-477): flip the dimensions, then
assign the successor rotation code through the `rotation` property, i.e.
through `set_rotation` (lines 489-492). -/
def rotate_cw (m : Mgr) : Except String Mgr :=
  let m1 := _flip_dimensions m
  set_rotation m1 (cwNext m1.rotation)

/-- The per-drag-session fields set by `DragManagerBase.drag_start`
(lines 391-404): the rectangle snapshot `t0, l0, r0, b0`, the drag kind
`state` from `classify`, and the aspect-lock flag `fixed_ratio` (honoured
only for corner kinds).  The pointer anchor `x0, y0` is folded into the
scaled deltas passed to `drag_continue`. -/
structure DragSess where
  t0 : Int
  l0 : Int
  r0 : Int
  b0 : Int
  state : Int
  fixed_ratio : Bool
deriving Repr, DecidableEq

/-- The aspect-lock delta adjustment of `drag_continue` (lines 409-415):
`ratio = (r0-l0) * 1. / (b0 - t0)`, negated for `DRAG_TR` and `DRAG_BL`;
then either `dy = int(round(dx / ratio))` or `dx = int(round(dy * ratio))`
depending on `abs(dx/ratio) > abs(dy)`.  The Python float arithmetic is
modelled exactly over `ℚ`; `round` is round-to-nearest (Python breaks exact
ties to even, Mathlib's `round` breaks them upward - both satisfy
`|round x - x| ≤ 1/2`, the only property used, and they agree off ties). -/
def drag_deltas (s : DragSess) (dx dy : Int) : Int × Int :=
  if s.fixed_ratio then
    let ratio0 : ℚ := ((s.r0 - s.l0 : Int) : ℚ) / ((s.b0 - s.t0 : Int) : ℚ)
    let ratio1 : ℚ := if s.state = DRAG_TR ∨ s.state = DRAG_BL then -ratio0 else ratio0
    if |(dx : ℚ) / ratio1| > |(dy : ℚ)| then
      (dx, round ((dx : ℚ) / ratio1))
    else
      (round ((dy : ℚ) * ratio1), dy)
  else
    (dx, dy)

/-- The center-drag horizontal clamp of `drag_continue` (lines 417-422):
for `DRAG_C`, `dx = min(dx, w - r0)` when `dx > 0`, else `dx = max(dx, -l0)`. -/
def clamp_dx (m : Mgr) (s : DragSess) (dx : Int) : Int :=
  if s.state = DRAG_C then (if 0 < dx then min dx (m.w - s.r0) else max dx (-s.l0)) else dx

/-- The center-drag vertical clamp of `drag_continue` (lines 423-426). -/
def clamp_dy (m : Mgr) (s : DragSess) (dy : Int) : Int :=
  if s.state = DRAG_C then (if 0 < dy then min dy (m.h - s.b0) else max dy (-s.t0)) else dy

/-- The candidate top edge of `drag_continue` (lines 416, 427-428, 436-437,
445-446): start from the current `top`, move to `t0 + dy` for kinds
`TL, T, TR, C`, clamp negatives to `0`, and for non-center kinds force
`new_top = min(bottom - 1, new_top)`. -/
def cand_top (m : Mgr) (s : DragSess) (dy : Int) : Int :=
  let nt := if s.state = DRAG_TL ∨ s.state = DRAG_T ∨ s.state = DRAG_TR ∨ s.state = DRAG_C
    then s.t0 + dy else m.top
  let nt := if nt < 0 then 0 else nt
  if s.state ≠ DRAG_C then min (m.bottom - 1) nt else nt

/-- The candidate left edge of `drag_continue` (lines 416, 429-430, 438-439,
447). -/
def cand_left (m : Mgr) (s : DragSess) (dx : Int) : Int :=
  let nl := if s.state = DRAG_TL ∨ s.state = DRAG_L ∨ s.state = DRAG_BL ∨ s.state = DRAG_C
    then s.l0 + dx else m.left
  let nl := if nl < 0 then 0 else nl
  if s.state ≠ DRAG_C then min (m.right - 1) nl else nl

/-- The candidate right edge of `drag_continue` (lines 416, 431-432, 440-441,
448): `new_right = w - 1` when `new_right >= w`, and for non-center kinds
`new_right = max(left + 1, new_right)`. -/
def cand_right (m : Mgr) (s : DragSess) (dx : Int) : Int :=
  let nr := if s.state = DRAG_TR ∨ s.state = DRAG_R ∨ s.state = DRAG_BR ∨ s.state = DRAG_C
    then s.r0 + dx else m.right
  let nr := if m.w ≤ nr then m.w - 1 else nr
  if s.state ≠ DRAG_C then max (m.left + 1) nr else nr

/-- The candidate bottom edge of `drag_continue` (lines 416, 433-434, 442-443,
449). -/
def cand_bottom (m : Mgr) (s : DragSess) (dy : Int) : Int :=
  let nb := if s.state = DRAG_BL ∨ s.state = DRAG_B ∨ s.state = DRAG_BR ∨ s.state = DRAG_C
    then s.b0 + dy else m.bottom
  let nb := if m.h ≤ nb then m.h - 1 else nb
  if s.state ≠ DRAG_C then max (m.top + 1) nb else nb

/-- The geometry of `drag_continue` after the aspect-lock block (lines
416-451): clamp the deltas for a center drag, build the four candidate
edges, and commit them through `set_crop`. -/
def drag_continue_core (m : Mgr) (s : DragSess) (dx dy : Int) : Mgr :=
  let dx := clamp_dx m s dx
  let dy := clamp_dy m s dy
  set_crop m (cand_top m s dy) (cand_left m s dx) (cand_right m s dx) (cand_bottom m s dy)

/-- `DragManagerBase.drag_continue` (lines 406-451).  `dx0, dy0` are the
already-scaled pointer deltas `(x - x0) * int(scale)` and
`(y - y0) * int(scale)` (the pointer position and scale enter only through
these integers). -/
def drag_continue (m : Mgr) (s : DragSess) (dx0 dy0 : Int) : Mgr :=
  drag_continue_core m s (drag_deltas s dx0 dy0).1 (drag_deltas s dx0 dy0).2

/-- `get_cropspec` (lines 82-98): `"%dfx%df+%d+%d" % (w, h, l, t)` for a
`JPEG` or `MPO` image, `"%dx%d+%d+%d" % (w, h, l, t)` otherwise, with
`w = r - l`, `h = b - t`.  The `rotation` argument is accepted and unused,
as in the source.  An image is represented by its format string. -/
def get_cropspec (format : String) (t l r b : Int) (rotation : Int) : String :=
  let w := r - l
  let h := b - t
  if format = "JPEG" ∨ format = "MPO" then
    toString w ++ "fx" ++ toString h ++ "f+" ++ toString l ++ "+" ++ toString t
  else
    toString w ++ "x" ++ toString h ++ "+" ++ toString l ++ "+" ++ toString t

/-- The rotation-argument translation of `CropTask.runner` (lines 151-158):
`3 -> "180"`, `6 -> "90"`, `8 -> "270"`, anything else `-> "none"`. -/
def rotation_str (rotation_int : Int) : String :=
  if rotation_int = 3 then "180"
  else if rotation_int = 6 then "90"
  else if rotation_int = 8 then "270"
  else "none"

/-- Which external command `CropTask.runner` builds. -/
inductive CmdKind
  | copy
  | jpegtran
  | convert
deriving Repr, DecidableEq

/-- The command selection of `CropTask.runner` (lines 160-182): a plain file
copy when `(r + b - l - t) == (image.width + image.height)` and the
translated rotation is `"none"`; otherwise `jpegtran` for a `JPEG` or `MPO`
image and ImageMagick `convert` for everything else. -/
def runner_command_kind (format : String) (iw ih : Int) (t l r b : Int)
    (rotation_int : Int) : CmdKind :=
  if (r + b - l - t) = (iw + ih) ∧ rotation_str rotation_int = "none" then
    .copy
  else if format = "JPEG" ∨ format = "MPO" then
    .jpegtran
  else
    .convert

/-- One iteration of the right-shift loop of `nextPowerOf2` (lines 75-77):
Python's `ceiln >>= 1` is an arithmetic shift, i.e. floor division by 2. -/
def nextPowerOf2_step (c : Int) : Int := c.fdiv 2

/-- `k` iterations of the right-shift loop of `nextPowerOf2` applied to the
loop variable `ceiln`. -/
def nextPowerOf2_iter : Nat → Int → Int
  | 0, c => c
  | k + 1, c => nextPowerOf2_iter k (nextPowerOf2_step c)

/-- The early-return guard of `nextPowerOf2` (line 72):
`ceiln and not (ceiln & (ceiln - 1))`, i.e. `ceiln` is nonzero and a
power of two.  Python's `&` on arbitrary-precision two's-complement
integers is `Int.land`. -/
def nextPowerOf2_early (ceiln : Int) : Bool :=
  decide (ceiln ≠ 0) && decide (Int.land ceiln (ceiln - 1) = 0)

/-! ### Arithmetic facts about floor division -/

/-- Floor division: `(x // r) * r ≤ x` for a positive divisor. -/
lemma mul_fdiv_le (x r : Int) (hr : 0 < r) : (x.fdiv r) * r ≤ x := by
  rw [Int.fdiv_eq_ediv _ hr.le]
  exact Int.ediv_mul_le _ (by omega)

/-- Floor division: `x < (x // r) * r + r` for a positive divisor. -/
lemma lt_mul_fdiv_add (x r : Int) (hr : 0 < r) : x < (x.fdiv r) * r + r := by
  have h := Int.lt_fdiv_add_one_mul_self x hr
  calc x < (x.fdiv r + 1) * r := h
    _ = (x.fdiv r) * r + r := by ring

/-- The rounded-up multiple `((x + r - 1) // r) * r` is at least `x`. -/
lemma ceil_mul_ge (x r : Int) (hr : 0 < r) : x ≤ ((x + r - 1).fdiv r) * r := by
  have h := lt_mul_fdiv_add (x + r - 1) r hr
  omega

/-- The rounded-up multiple `((x + r - 1) // r) * r` is at most `x + r - 1`. -/
lemma ceil_mul_le (x r : Int) (hr : 0 < r) : ((x + r - 1).fdiv r) * r ≤ x + r - 1 :=
  mul_fdiv_le _ _ hr

/-- Rounding up an exact multiple of `r` returns it unchanged. -/
lemma ceil_mul_eq_of_dvd (x r : Int) (hr : 0 < r) (h : r ∣ x) :
    ((x + r - 1).fdiv r) * r = x := by
  have h1 := ceil_mul_ge x r hr
  have h2 := ceil_mul_le x r hr
  obtain ⟨c, rfl⟩ := h
  set q := ((r * c + r - 1).fdiv r) * r with hq
  have hd : r ∣ q := dvd_mul_left r _
  obtain ⟨d, hdq⟩ := hd
  have hdc : d = c := by
    rcases lt_trichotomy d c with hlt | heq | hgt
    · exfalso
      have hd1 : d ≤ c - 1 := by omega
      have : r * d ≤ r * (c - 1) := mul_le_mul_of_nonneg_left hd1 hr.le
      nlinarith
    · exact heq
    · exfalso
      have hd1 : c + 1 ≤ d := by omega
      have : r * (c + 1) ≤ r * d := mul_le_mul_of_nonneg_left hd1 hr.le
      nlinarith
  rw [hdq, hdc]

/-- Floor division of an exact multiple recovers it: `(x // r) * r = x`
when `r ∣ x` and `r > 0`. -/
lemma fdiv_mul_cancel_of_dvd (x r : Int) (hr : 0 < r) (h : r ∣ x) :
    (x.fdiv r) * r = x := by
  rw [Int.fdiv_eq_ediv _ hr.le]
  exact Int.ediv_mul_cancel h

/-! ### Characterisation of `fix` -/

/-- The second component of `fix` is the larger input, untouched. -/
lemma fix_snd (a b lim r : Int) (rev : Bool) : (fix a b lim r rev).2 = max a b := by
  cases rev <;> rfl

/-- The first component of `fix` in the forward (`reverse = False`) case. -/
lemma fix_fst_forward (a b lim r : Int) :
    (fix a b lim r false).1 = ((min a b).fdiv r) * r := rfl

/-- The first component of `fix` in the `reverse = True` case. -/
lemma fix_fst_reverse (a b lim r : Int) :
    (fix a b lim r true).1 =
      (if lim - (((lim - min a b) + r - 1).fdiv r) * r < 0 then
        lim - (((lim - min a b) + r - 1).fdiv r) * r + r
      else lim - (((lim - min a b) + r - 1).fdiv r) * r) := rfl

/-- In the forward case the anchored edge is a nonneg-preserving snap-down to
a multiple of `r`. -/
lemma fix_forward_char (a b lim r : Int) (hr : 0 < r) :
    (fix a b lim r false).1 ≤ min a b ∧ r ∣ (fix a b lim r false).1 ∧
      (0 ≤ min a b → 0 ≤ (fix a b lim r false).1) := by
  rw [fix_fst_forward]
  refine ⟨mul_fdiv_le _ _ hr, dvd_mul_left r _, fun h0 => ?_⟩
  exact mul_nonneg (Int.fdiv_nonneg h0 hr.le) hr.le

/-- In the reverse case, for nonnegative inputs, the anchored edge is
nonnegative, is congruent to `lim` modulo `r`, and either snapped down
(at most `min a b`) or produced by the one-step fix-up (less than `r`). -/
lemma fix_reverse_char (a b lim r : Int) (hr : 0 < r) (h0 : 0 ≤ min a b) :
    0 ≤ (fix a b lim r true).1 ∧
      ((fix a b lim r true).1 ≤ min a b ∨ (fix a b lim r true).1 ≤ r - 1) ∧
      r ∣ (lim - (fix a b lim r true).1) := by
  rw [fix_fst_reverse]
  set lo := min a b with hlo
  set q := ((lim - lo) + r - 1).fdiv r with hq
  have hge : lim - lo ≤ q * r := ceil_mul_ge (lim - lo) r hr
  have hle : q * r ≤ lim - lo + r - 1 := ceil_mul_le (lim - lo) r hr
  by_cases hneg : lim - q * r < 0
  · simp only [hneg, if_pos]
    refine ⟨by omega, Or.inr (by omega), ⟨q - 1, by ring⟩⟩
  · simp only [hneg, if_neg, not_false_iff]
    refine ⟨by omega, Or.inl (by omega), ⟨q, by ring⟩⟩

/-- With granularity 1 and nonnegative inputs, `fix` just sorts the pair. -/
lemma fix_one (a b lim : Int) (rev : Bool) (h0 : 0 ≤ min a b) :
    fix a b lim 1 rev = (min a b, max a b) := by
  cases rev
  · simp [fix]
  · have h1 : lim - min a b + 1 - 1 = lim - min a b := by ring
    simp only [fix, h1, Int.fdiv_one, mul_one]
    have h2 : lim - (lim - min a b) = min a b := by ring
    rw [h2]
    simp [h0, not_lt.mpr h0]

/-- Applying `fix` to its own output changes nothing, provided the output is
still an ordered pair (the reverse fix-up can emit `a > b`, in which case a
second pass moves the pair; see the C10 counterexample). -/
lemma fix_fix (a b lim r : Int) (rev : Bool) (hr : 0 < r) (h0 : 0 ≤ min a b)
    (hord : (fix a b lim r rev).1 ≤ (fix a b lim r rev).2) :
    fix (fix a b lim r rev).1 (fix a b lim r rev).2 lim r rev = fix a b lim r rev := by
  have hsnd := fix_snd a b lim r rev
  cases rev
  · obtain ⟨hle, hdvd, hnn⟩ := fix_forward_char a b lim r hr
    have hmin : min (fix a b lim r false).1 (fix a b lim r false).2 =
        (fix a b lim r false).1 := min_eq_left hord
    have hmax : max (fix a b lim r false).1 (fix a b lim r false).2 =
        (fix a b lim r false).2 := max_eq_right hord
    have h1 : (fix (fix a b lim r false).1 (fix a b lim r false).2 lim r false).1 =
        (fix a b lim r false).1 := by
      rw [fix_fst_forward, hmin, fdiv_mul_cancel_of_dvd _ _ hr hdvd]
    have h2 : (fix (fix a b lim r false).1 (fix a b lim r false).2 lim r false).2 =
        (fix a b lim r false).2 := by
      rw [fix_snd, hmax]
    exact Prod.ext h1 h2
  · obtain ⟨hnn, _hle, hdvd⟩ := fix_reverse_char a b lim r hr h0
    have hmin : min (fix a b lim r true).1 (fix a b lim r true).2 =
        (fix a b lim r true).1 := min_eq_left hord
    have hmax : max (fix a b lim r true).1 (fix a b lim r true).2 =
        (fix a b lim r true).2 := max_eq_right hord
    have h1 : (fix (fix a b lim r true).1 (fix a b lim r true).2 lim r true).1 =
        (fix a b lim r true).1 := by
      rw [fix_fst_reverse, hmin, ceil_mul_eq_of_dvd _ _ hr hdvd]
      have h3 : lim - (lim - (fix a b lim r true).1) = (fix a b lim r true).1 := by ring
      rw [h3]
      simp [not_lt.mpr hnn]
    have h2 : (fix (fix a b lim r true).1 (fix a b lim r true).2 lim r true).2 =
        (fix a b lim r true).2 := by
      rw [fix_snd, hmax]
    exact Prod.ext h1 h2

/-! ### Field-preservation facts about `image_or_rotation_changed` -/

/-- The rectangle recomputation leaves `w` unchanged. -/
lemma image_or_rotation_changed_w (m : Mgr) : (image_or_rotation_changed m).w = m.w := by
  unfold image_or_rotation_changed; split <;> rfl

/-- The rectangle recomputation leaves `h` unchanged. -/
lemma image_or_rotation_changed_h (m : Mgr) : (image_or_rotation_changed m).h = m.h := by
  unfold image_or_rotation_changed; split <;> rfl

/-- The rectangle recomputation leaves `round_x` unchanged. -/
lemma image_or_rotation_changed_round_x (m : Mgr) :
    (image_or_rotation_changed m).round_x = m.round_x := by
  unfold image_or_rotation_changed; split <;> rfl

/-- The rectangle recomputation leaves `round_y` unchanged. -/
lemma image_or_rotation_changed_round_y (m : Mgr) :
    (image_or_rotation_changed m).round_y = m.round_y := by
  unfold image_or_rotation_changed; split <;> rfl

/-- The rectangle recomputation leaves `rotation` unchanged. -/
lemma image_or_rotation_changed_rotation (m : Mgr) :
    (image_or_rotation_changed m).rotation = m.rotation := by
  unfold image_or_rotation_changed; split <;> rfl

/-! ### C3: the `fix` anchor -/

/-- C3 counterexample: `fix(0, 10, 10, 4, True)` (exactly the call
`image_or_rotation_changed` makes for a 10-pixel axis with granularity 4
under a 180-degree rotation) returns anchored edge `2`, which is NOT a
multiple of the granularity 4 - in the reverse case the anchor is aligned
to the grid measured from `lim`, not from zero.  This refutes the claim
that the anchored edge is always a multiple of the granularity. -/
theorem fix_reverse_anchor_not_multiple :
    (fix 0 10 10 4 true).1 = 2 ∧ ¬ (4 : Int) ∣ (fix 0 10 10 4 true).1 := by
  have he : (fix 0 10 10 4 true).1 = 2 := by decide
  refine ⟨he, ?_⟩
  rw [he]
  omega

/-- C3 (amended): for nonnegative interval inputs and positive granularity,
the anchored edge returned by `fix` is never negative (in particular the
one-step fix-up in the reverse case suffices), and it is grid-aligned: a
multiple of the granularity in the forward case, and congruent to `limit`
modulo the granularity (i.e. `limit - a` is a multiple) in the reverse
case - not, as claimed, a multiple of the granularity in both cases. -/
theorem fix_anchor_nonneg_and_grid (a b lim r : Int) (rev : Bool)
    (hr : 1 ≤ r) (ha : 0 ≤ a) (hb : 0 ≤ b) :
    0 ≤ (fix a b lim r rev).1 ∧
      (rev = false → r ∣ (fix a b lim r rev).1) ∧
      (rev = true → r ∣ (lim - (fix a b lim r rev).1)) := by
  have h0 : 0 ≤ min a b := le_min ha hb
  cases rev
  · obtain ⟨hle, hdvd, hnn⟩ := fix_forward_char a b lim r (by omega)
    exact ⟨hnn h0, fun _ => hdvd, fun h => by simp at h⟩
  · obtain ⟨hnn, _, hdvd⟩ := fix_reverse_char a b lim r (by omega) h0
    exact ⟨hnn, fun h => by simp at h, fun _ => hdvd⟩

/-- Witness for C3 (amended) at `fix 3 9 20 4 false` and via the reverse
case through the same theorem at `fix 0 10 10 4 true`. -/
theorem fix_anchor_nonneg_and_grid_witness :
    (0 ≤ (fix 3 9 20 4 false).1 ∧ (4 : Int) ∣ (fix 3 9 20 4 false).1) ∧
      (0 ≤ (fix 0 10 10 4 true).1 ∧ (4 : Int) ∣ (10 - (fix 0 10 10 4 true).1)) := by
  obtain ⟨h1, h2, _⟩ := fix_anchor_nonneg_and_grid 3 9 20 4 false (by omega) (by omega) (by omega)
  obtain ⟨h3, _, h4⟩ := fix_anchor_nonneg_and_grid 0 10 10 4 true (by omega) (by omega) (by omega)
  exact ⟨⟨h1, h2 rfl⟩, ⟨h3, h4 rfl⟩⟩

/-! ### C10: idempotence of `set_crop` -/

/-- C10 counterexample: with `h = 10`, `round_y = 4`, `rotation = 3`
(reverse vertical anchoring), `set_crop(0, 0, 8, 1)` stores `top = 2`,
`bottom = 1`; calling `set_crop` again with exactly the stored values moves
`bottom` from 1 to 2, so `set_crop` is not idempotent on its own output. -/
theorem set_crop_not_idempotent :
    ((set_crop ⟨10, 10, 1, 4, 3, 0, 0, 10, 10, 0, 0, 0, 0, 0, 0⟩ 0 0 8 1).top = 2 ∧
      (set_crop ⟨10, 10, 1, 4, 3, 0, 0, 10, 10, 0, 0, 0, 0, 0, 0⟩ 0 0 8 1).bottom = 1) ∧
    (set_crop (set_crop ⟨10, 10, 1, 4, 3, 0, 0, 10, 10, 0, 0, 0, 0, 0, 0⟩ 0 0 8 1)
        (set_crop ⟨10, 10, 1, 4, 3, 0, 0, 10, 10, 0, 0, 0, 0, 0, 0⟩ 0 0 8 1).top
        (set_crop ⟨10, 10, 1, 4, 3, 0, 0, 10, 10, 0, 0, 0, 0, 0, 0⟩ 0 0 8 1).left
        (set_crop ⟨10, 10, 1, 4, 3, 0, 0, 10, 10, 0, 0, 0, 0, 0, 0⟩ 0 0 8 1).right
        (set_crop ⟨10, 10, 1, 4, 3, 0, 0, 10, 10, 0, 0, 0, 0, 0, 0⟩ 0 0 8 1).bottom).bottom
      = 2 := by decide

/-- C10 (amended): `set_crop` is idempotent on the rectangle it stored,
provided the call's interval arguments were nonnegative (as at every call
site in the file) and the stored rectangle is still ordered
(`top ≤ bottom`, `left ≤ right`); the reverse-anchored `fix` can emit an
inverted pair, and a second `set_crop` then moves the far edge (see the
counterexample). -/
theorem set_crop_idempotent_of_ordered (m : Mgr) (t l r b : Int)
    (hrx : 1 ≤ m.round_x) (hry : 1 ≤ m.round_y)
    (htb : 0 ≤ min t b) (hlr : 0 ≤ min l r)
    (hord1 : (set_crop m t l r b).top ≤ (set_crop m t l r b).bottom)
    (hord2 : (set_crop m t l r b).left ≤ (set_crop m t l r b).right) :
    set_crop (set_crop m t l r b) (set_crop m t l r b).top (set_crop m t l r b).left
      (set_crop m t l r b).right (set_crop m t l r b).bottom = set_crop m t l r b := by
  have e1 := fix_fix t b m.h m.round_y (m.rotation == 3 || m.rotation == 8) (by omega) htb hord1
  have e2 := fix_fix l r m.w m.round_x (m.rotation == 3 || m.rotation == 6) (by omega) hlr hord2
  show set_crop
      { m with
        top := (fix t b m.h m.round_y (m.rotation == 3 || m.rotation == 8)).1
        bottom := (fix t b m.h m.round_y (m.rotation == 3 || m.rotation == 8)).2
        left := (fix l r m.w m.round_x (m.rotation == 3 || m.rotation == 6)).1
        right := (fix l r m.w m.round_x (m.rotation == 3 || m.rotation == 6)).2 } _ _ _ _ = _
  unfold set_crop
  simp only [e1, e2]

/-- Witness for C10 (amended): a second `set_crop` with the stored values is
the identity on a concrete aligned state. -/
theorem set_crop_idempotent_of_ordered_witness :
    set_crop (set_crop ⟨10, 10, 1, 4, 3, 0, 0, 10, 10, 0, 0, 0, 0, 0, 0⟩ 4 0 8 9)
        (set_crop ⟨10, 10, 1, 4, 3, 0, 0, 10, 10, 0, 0, 0, 0, 0, 0⟩ 4 0 8 9).top
        (set_crop ⟨10, 10, 1, 4, 3, 0, 0, 10, 10, 0, 0, 0, 0, 0, 0⟩ 4 0 8 9).left
        (set_crop ⟨10, 10, 1, 4, 3, 0, 0, 10, 10, 0, 0, 0, 0, 0, 0⟩ 4 0 8 9).right
        (set_crop ⟨10, 10, 1, 4, 3, 0, 0, 10, 10, 0, 0, 0, 0, 0, 0⟩ 4 0 8 9).bottom
      = set_crop ⟨10, 10, 1, 4, 3, 0, 0, 10, 10, 0, 0, 0, 0, 0, 0⟩ 4 0 8 9 :=
  set_crop_idempotent_of_ordered ⟨10, 10, 1, 4, 3, 0, 0, 10, 10, 0, 0, 0, 0, 0, 0⟩ 4 0 8 9
    (by decide) (by decide) (by decide) (by decide) (by decide) (by decide)

/-! ### C4: the copy-command condition of the worker -/

/-- The translated rotation is `"none"` exactly for codes other than
3, 6 and 8 - not only for the identity code 1. -/
lemma rotation_str_eq_none_iff (ri : Int) :
    rotation_str ri = "none" ↔ (ri ≠ 3 ∧ ri ≠ 6 ∧ ri ≠ 8) := by
  unfold rotation_str
  split_ifs with h3 h6 h8
  · simp only [h3]
    exact ⟨fun h => absurd h (by decide), fun h => absurd rfl h.1⟩
  · simp only [h6]
    exact ⟨fun h => absurd h (by decide), fun h => absurd rfl h.2.1⟩
  · simp only [h8]
    exact ⟨fun h => absurd h (by decide), fun h => absurd rfl h.2.2⟩
  · exact ⟨fun _ => ⟨h3, h6, h8⟩, fun _ => rfl⟩

/-- C4 counterexample: a full-bounds JPEG job with rotation code 2 (a valid
EXIF orientation that `image_rotation` can deliver, but not the identity 1)
is still dispatched as a plain copy, because `runner` treats every code
outside `{3, 6, 8}` as "no rotation".  This refutes the claimed
"if and only if the rotation code is the identity (1)". -/
theorem runner_copy_not_iff_identity :
    ¬ (runner_command_kind "JPEG" 10 10 0 0 10 10 2 = CmdKind.copy ↔
        ((0 : Int) = 0 ∧ (0 : Int) = 0 ∧ (10 : Int) = 10 ∧ (10 : Int) = 10 ∧
          (2 : Int) = 1)) := by decide

/-- C4 (amended): for a job whose corners satisfy
`0 ≤ left < right ≤ width` and `0 ≤ top < bottom ≤ height`, the worker
builds a plain file-copy command if and only if the rectangle equals the
full image bounds and the rotation code is none of 3, 6, 8 (every such code,
not only the identity 1, maps to "no rotation"). -/
theorem runner_copy_iff (format : String) (iw ih t l r b ri : Int)
    (hl : 0 ≤ l) (hlr : l < r) (hrw : r ≤ iw)
    (ht : 0 ≤ t) (htb : t < b) (hbh : b ≤ ih) :
    runner_command_kind format iw ih t l r b ri = CmdKind.copy ↔
      (l = 0 ∧ t = 0 ∧ r = iw ∧ b = ih ∧ ri ≠ 3 ∧ ri ≠ 6 ∧ ri ≠ 8) := by
  unfold runner_command_kind
  rcases Decidable.em ((r + b - l - t) = (iw + ih) ∧ rotation_str ri = "none") with hc | hc
  · rw [if_pos hc]
    obtain ⟨hsum, hnone⟩ := hc
    rw [rotation_str_eq_none_iff] at hnone
    constructor
    · intro _
      exact ⟨by omega, by omega, by omega, by omega, hnone⟩
    · intro _
      rfl
  · rw [if_neg hc]
    constructor
    · intro hk
      exfalso
      split_ifs at hk <;> exact absurd hk (by decide)
    · intro ⟨e1, e2, e3, e4, hn⟩
      exfalso
      exact hc ⟨by omega, (rotation_str_eq_none_iff ri).mpr hn⟩

/-- Witness for C4 (amended): a full-bounds PNG job with identity rotation is
dispatched as a plain copy. -/
theorem runner_copy_iff_witness :
    runner_command_kind "PNG" 10 10 0 0 10 10 1 = CmdKind.copy :=
  (runner_copy_iff "PNG" 10 10 0 0 10 10 1 (by omega) (by omega) (by omega)
    (by omega) (by omega) (by omega)).mpr
    ⟨rfl, rfl, rfl, rfl, by omega, by omega, by omega⟩

/-! ### C6: `set_rotation` validation -/

/-- C6: `set_rotation` succeeds exactly on the rotation codes 1, 3, 6, 8,
storing the new code; for every other value it reports the unsupported
rotation error (the raise happens before any mutation, so the manager state
is unchanged - the error carries no new state). -/
theorem set_rotation_valid_or_error (m : Mgr) (r : Int) :
    ((r = 1 ∨ r = 3 ∨ r = 6 ∨ r = 8) →
      ∃ m2, set_rotation m r = .ok m2 ∧ m2.rotation = r) ∧
    (¬(r = 1 ∨ r = 3 ∨ r = 6 ∨ r = 8) →
      set_rotation m r = .error ("Unsupported rotation " ++ toString r)) := by
  constructor
  · intro hv
    refine ⟨image_or_rotation_changed { m with rotation := r }, ?_, ?_⟩
    · unfold set_rotation
      rw [if_pos hv]
    · rw [image_or_rotation_changed_rotation]
  · intro hv
    unfold set_rotation
    rw [if_neg hv]

/-- Witness for C6 at the valid code 6 and the invalid code 5. -/
theorem set_rotation_valid_or_error_witness :
    (∃ m2, set_rotation ⟨8, 6, 1, 1, 1, 0, 0, 8, 6, 0, 0, 0, 0, 0, 0⟩ 6 = .ok m2 ∧
      m2.rotation = 6) ∧
    set_rotation ⟨8, 6, 1, 1, 1, 0, 0, 8, 6, 0, 0, 0, 0, 0, 0⟩ 5 =
      .error ("Unsupported rotation " ++ toString (5 : Int)) :=
  ⟨(set_rotation_valid_or_error ⟨8, 6, 1, 1, 1, 0, 0, 8, 6, 0, 0, 0, 0, 0, 0⟩ 6).1 (by decide),
    (set_rotation_valid_or_error ⟨8, 6, 1, 1, 1, 0, 0, 8, 6, 0, 0, 0, 0, 0, 0⟩ 5).2 (by decide)⟩

/-! ### C7: the crop-spec string -/

/-- C7: `get_cropspec` yields `"WfxHf+L+T"` (the `f` suffix on both the
width and height fields) exactly when the image format is JPEG-family
(`JPEG` or `MPO`), and the plain `"WxH+L+T"` otherwise, with `W = r - l`
and `H = b - t`. -/
theorem get_cropspec_suffix_iff (format : String) (t l r b rot : Int) :
    ((format = "JPEG" ∨ format = "MPO") →
      get_cropspec format t l r b rot =
        toString (r - l) ++ "fx" ++ toString (b - t) ++ "f+" ++
          toString l ++ "+" ++ toString t) ∧
    (¬(format = "JPEG" ∨ format = "MPO") →
      get_cropspec format t l r b rot =
        toString (r - l) ++ "x" ++ toString (b - t) ++ "+" ++
          toString l ++ "+" ++ toString t) := by
  constructor
  · intro h
    unfold get_cropspec
    rw [if_pos h]
  · intro h
    unfold get_cropspec
    rw [if_neg h]

/-- Witness for C7 at a JPEG image and at a PNG image. -/
theorem get_cropspec_suffix_iff_witness :
    get_cropspec "JPEG" 2 3 13 23 1 =
      toString (13 - 3 : Int) ++ "fx" ++ toString (23 - 2 : Int) ++ "f+" ++
        toString (3 : Int) ++ "+" ++ toString (2 : Int) ∧
    get_cropspec "PNG" 2 3 13 23 1 =
      toString (13 - 3 : Int) ++ "x" ++ toString (23 - 2 : Int) ++ "+" ++
        toString (3 : Int) ++ "+" ++ toString (2 : Int) :=
  ⟨(get_cropspec_suffix_iff "JPEG" 2 3 13 23 1).1 (Or.inl rfl),
    (get_cropspec_suffix_iff "PNG" 2 3 13 23 1).2 (by decide)⟩

/-! ### C5: the rotation 4-cycle -/

/-- `set_rotation` on a valid code takes the success path. -/
lemma set_rotation_ok (m : Mgr) (r : Int) (hv : r = 1 ∨ r = 3 ∨ r = 6 ∨ r = 8) :
    set_rotation m r = .ok (image_or_rotation_changed { m with rotation := r }) := by
  unfold set_rotation
  rw [if_pos hv]

/-- `cwNext` maps the valid rotation codes to valid rotation codes. -/
lemma cwNext_valid (r : Int) (hv : r = 1 ∨ r = 3 ∨ r = 6 ∨ r = 8) :
    cwNext r = 1 ∨ cwNext r = 3 ∨ cwNext r = 6 ∨ cwNext r = 8 := by
  rcases hv with h | h | h | h <;> subst h <;> decide

/-- `cwNext` is a 4-cycle on the valid rotation codes. -/
lemma cwNext_four (r : Int) (hv : r = 1 ∨ r = 3 ∨ r = 6 ∨ r = 8) :
    cwNext (cwNext (cwNext (cwNext r))) = r := by
  rcases hv with h | h | h | h <;> subst h <;> decide

/-- One `rotate_cw` on a valid rotation succeeds, swaps `w` with `h` and
`round_x` with `round_y`, and advances the rotation by `cwNext`. -/
lemma rotate_cw_char (m : Mgr)
    (hv : m.rotation = 1 ∨ m.rotation = 3 ∨ m.rotation = 6 ∨ m.rotation = 8) :
    ∃ m2, rotate_cw m = .ok m2 ∧ m2.w = m.h ∧ m2.h = m.w ∧ m2.round_x = m.round_y ∧
      m2.round_y = m.round_x ∧ m2.rotation = cwNext m.rotation := by
  have hv2 := cwNext_valid m.rotation hv
  refine ⟨image_or_rotation_changed
    { _flip_dimensions m with rotation := cwNext m.rotation }, ?_, ?_, ?_, ?_, ?_, ?_⟩
  · unfold rotate_cw
    exact set_rotation_ok _ _ hv2
  · rw [image_or_rotation_changed_w]; rfl
  · rw [image_or_rotation_changed_h]; rfl
  · rw [image_or_rotation_changed_round_x]; rfl
  · rw [image_or_rotation_changed_round_y]; rfl
  · rw [image_or_rotation_changed_rotation]

/-- C5: from any of the rotation codes 1, 3, 6, 8 and any dimensions and
granularities, four `rotate_cw` steps succeed and restore the rotation
code, the width, the height and both rounding granularities; the single
step advances the rotation through the cycle `1 -> 6 -> 3 -> 8 -> 1`. -/
theorem rotate_cw_four_cycle (m : Mgr)
    (hv : m.rotation = 1 ∨ m.rotation = 3 ∨ m.rotation = 6 ∨ m.rotation = 8) :
    (∃ m1 m2 m3 m4,
      rotate_cw m = .ok m1 ∧ rotate_cw m1 = .ok m2 ∧
      rotate_cw m2 = .ok m3 ∧ rotate_cw m3 = .ok m4 ∧
      m4.rotation = m.rotation ∧ m4.w = m.w ∧ m4.h = m.h ∧
      m4.round_x = m.round_x ∧ m4.round_y = m.round_y) ∧
    (cwNext 1 = 6 ∧ cwNext 6 = 3 ∧ cwNext 3 = 8 ∧ cwNext 8 = 1) := by
  obtain ⟨m1, e1, w1, h1, x1, y1, r1⟩ := rotate_cw_char m hv
  have hv1 : m1.rotation = 1 ∨ m1.rotation = 3 ∨ m1.rotation = 6 ∨ m1.rotation = 8 := by
    rw [r1]; exact cwNext_valid _ hv
  obtain ⟨m2, e2, w2, h2, x2, y2, r2⟩ := rotate_cw_char m1 hv1
  have hv2 : m2.rotation = 1 ∨ m2.rotation = 3 ∨ m2.rotation = 6 ∨ m2.rotation = 8 := by
    rw [r2]; exact cwNext_valid _ hv1
  obtain ⟨m3, e3, w3, h3, x3, y3, r3⟩ := rotate_cw_char m2 hv2
  have hv3 : m3.rotation = 1 ∨ m3.rotation = 3 ∨ m3.rotation = 6 ∨ m3.rotation = 8 := by
    rw [r3]; exact cwNext_valid _ hv2
  obtain ⟨m4, e4, w4, h4, x4, y4, r4⟩ := rotate_cw_char m3 hv3
  refine ⟨⟨m1, m2, m3, m4, e1, e2, e3, e4, ?_, ?_, ?_, ?_, ?_⟩, by decide, by decide,
    by decide, by decide⟩
  · rw [r4, r3, r2, r1]
    exact cwNext_four _ hv
  · rw [w4, h3, w2, h1]
  · rw [h4, w3, h2, w1]
  · rw [x4, y3, x2, y1]
  · rw [y4, x3, y2, x1]

/-- Witness for C5 on a concrete manager with rotation 1 and distinct
dimensions and granularities. -/
theorem rotate_cw_four_cycle_witness :
    (∃ m1 m2 m3 m4,
      rotate_cw ⟨40, 30, 16, 8, 1, 0, 0, 40, 30, 0, 0, 0, 0, 0, 0⟩ = .ok m1 ∧
      rotate_cw m1 = .ok m2 ∧ rotate_cw m2 = .ok m3 ∧ rotate_cw m3 = .ok m4 ∧
      m4.rotation = (⟨40, 30, 16, 8, 1, 0, 0, 40, 30, 0, 0, 0, 0, 0, 0⟩ : Mgr).rotation ∧
      m4.w = (⟨40, 30, 16, 8, 1, 0, 0, 40, 30, 0, 0, 0, 0, 0, 0⟩ : Mgr).w ∧
      m4.h = (⟨40, 30, 16, 8, 1, 0, 0, 40, 30, 0, 0, 0, 0, 0, 0⟩ : Mgr).h ∧
      m4.round_x = (⟨40, 30, 16, 8, 1, 0, 0, 40, 30, 0, 0, 0, 0, 0, 0⟩ : Mgr).round_x ∧
      m4.round_y = (⟨40, 30, 16, 8, 1, 0, 0, 40, 30, 0, 0, 0, 0, 0, 0⟩ : Mgr).round_y) ∧
    (cwNext 1 = 6 ∧ cwNext 6 = 3 ∧ cwNext 3 = 8 ∧ cwNext 8 = 1) :=
  rotate_cw_four_cycle ⟨40, 30, 16, 8, 1, 0, 0, 40, 30, 0, 0, 0, 0, 0, 0⟩ (by decide)

/-! ### C8: the rectangle recomputation policy -/

/-- C8: on an image or rotation change, if the current width is nonzero and
the current width and height equal the previously saved ones, the previous
rectangle is reused as-is; otherwise the rectangle is reset to the full
aligned bounds via `fix` per axis, with reverse anchoring exactly for
rotations `{3, 8}` on the vertical axis and `{3, 6}` on the horizontal
axis. -/
theorem image_or_rotation_changed_policy (m : Mgr) :
    ((m.w ≠ 0 ∧ m.w = m.prev_w ∧ m.h = m.prev_h) →
      (image_or_rotation_changed m).top = m.prev_top ∧
      (image_or_rotation_changed m).bottom = m.prev_bottom ∧
      (image_or_rotation_changed m).left = m.prev_left ∧
      (image_or_rotation_changed m).right = m.prev_right) ∧
    (¬(m.w ≠ 0 ∧ m.w = m.prev_w ∧ m.h = m.prev_h) →
      (image_or_rotation_changed m).top =
        (fix 0 m.h m.h m.round_y (m.rotation == 3 || m.rotation == 8)).1 ∧
      (image_or_rotation_changed m).bottom =
        (fix 0 m.h m.h m.round_y (m.rotation == 3 || m.rotation == 8)).2 ∧
      (image_or_rotation_changed m).left =
        (fix 0 m.w m.w m.round_x (m.rotation == 3 || m.rotation == 6)).1 ∧
      (image_or_rotation_changed m).right =
        (fix 0 m.w m.w m.round_x (m.rotation == 3 || m.rotation == 6)).2) := by
  constructor
  · intro h
    unfold image_or_rotation_changed
    rw [if_neg (by tauto)]
    exact ⟨rfl, rfl, rfl, rfl⟩
  · intro h
    unfold image_or_rotation_changed
    rw [if_pos (by tauto)]
    exact ⟨rfl, rfl, rfl, rfl⟩

/-- Witness for C8: reuse on a size-matched state, reset on a freshly sized
state, both through the policy theorem. -/
theorem image_or_rotation_changed_policy_witness :
    ((image_or_rotation_changed ⟨8, 6, 1, 1, 1, 0, 0, 8, 6, 8, 6, 2, 5, 3, 7⟩).top = 2 ∧
      (image_or_rotation_changed ⟨8, 6, 1, 1, 1, 0, 0, 8, 6, 8, 6, 2, 5, 3, 7⟩).bottom = 5 ∧
      (image_or_rotation_changed ⟨8, 6, 1, 1, 1, 0, 0, 8, 6, 8, 6, 2, 5, 3, 7⟩).left = 3 ∧
      (image_or_rotation_changed ⟨8, 6, 1, 1, 1, 0, 0, 8, 6, 8, 6, 2, 5, 3, 7⟩).right = 7) ∧
    ((image_or_rotation_changed ⟨8, 6, 1, 1, 1, 0, 0, 8, 6, 9, 6, 2, 5, 3, 7⟩).top =
        (fix 0 6 6 1 false).1 ∧
      (image_or_rotation_changed ⟨8, 6, 1, 1, 1, 0, 0, 8, 6, 9, 6, 2, 5, 3, 7⟩).bottom =
        (fix 0 6 6 1 false).2 ∧
      (image_or_rotation_changed ⟨8, 6, 1, 1, 1, 0, 0, 8, 6, 9, 6, 2, 5, 3, 7⟩).left =
        (fix 0 8 8 1 false).1 ∧
      (image_or_rotation_changed ⟨8, 6, 1, 1, 1, 0, 0, 8, 6, 9, 6, 2, 5, 3, 7⟩).right =
        (fix 0 8 8 1 false).2) :=
  ⟨(image_or_rotation_changed_policy ⟨8, 6, 1, 1, 1, 0, 0, 8, 6, 8, 6, 2, 5, 3, 7⟩).1
      (by decide),
    (image_or_rotation_changed_policy ⟨8, 6, 1, 1, 1, 0, 0, 8, 6, 9, 6, 2, 5, 3, 7⟩).2
      (by decide)⟩

/-! ### C9: termination of the `nextPowerOf2` shift loop -/

/-- A nonnegative loop variable bounded by `n` reaches 0 within `n`
iterations of the arithmetic right shift. -/
lemma nextPowerOf2_iter_reaches_zero :
    ∀ (n : Nat) (c : Int), 0 ≤ c → c ≤ (n : Int) → nextPowerOf2_iter n c = 0 := by
  intro n
  induction n with
  | zero =>
    intro c h1 h2
    have : c = 0 := by omega
    simpa [nextPowerOf2_iter] using this
  | succ n ih =>
    intro c h1 h2
    show nextPowerOf2_iter n (nextPowerOf2_step c) = 0
    have hstep : (nextPowerOf2_step c) * 2 ≤ c := mul_fdiv_le c 2 (by omega)
    have hnn : 0 ≤ nextPowerOf2_step c := Int.fdiv_nonneg h1 (by omega)
    exact ih _ hnn (by push_cast; omega)

/-- A negative loop variable stays negative under the arithmetic right
shift, for any number of iterations. -/
lemma nextPowerOf2_iter_neg : ∀ (k : Nat) (c : Int), c < 0 → nextPowerOf2_iter k c < 0 := by
  intro k
  induction k with
  | zero => intro c h; exact h
  | succ k ih =>
    intro c h
    exact ih _ (Int.fdiv_neg' h (by omega))

/-- A negative integer bitwise-ANDed with its predecessor is negative, hence
nonzero: in two's complement both operands have infinitely many high one
bits. -/
lemma land_pred_ne_zero_of_neg (c : Int) (h : c < 0) : Int.land c (c - 1) ≠ 0 := by
  cases c with
  | ofNat n => exact absurd h (not_lt.mpr (Int.ofNat_nonneg n))
  | negSucc n =>
    rw [Int.negSucc_sub_one]
    show Int.negSucc (n ||| (n + 1)) ≠ 0
    simp

/-- C9: the right-shift loop of `nextPowerOf2` terminates exactly on a
nonnegative `ceil(n)`: a nonnegative loop variable reaches 0 within
`ceiln` iterations, while for a negative `ceiln` the early power-of-two
return does not fire and the loop variable never reaches 0, so the
function does not terminate. -/
theorem nextPowerOf2_loop_terminates_iff (c : Int) :
    (0 ≤ c → nextPowerOf2_iter c.toNat c = 0) ∧
    (c < 0 → nextPowerOf2_early c = false ∧ ∀ k, nextPowerOf2_iter k c ≠ 0) := by
  constructor
  · intro h
    exact nextPowerOf2_iter_reaches_zero c.toNat c h (by omega)
  · intro h
    constructor
    · unfold nextPowerOf2_early
      have := land_pred_ne_zero_of_neg c h
      simp [this]
    · intro k
      exact (nextPowerOf2_iter_neg k c h).ne

/-- Witness for C9 at the nonnegative input 5 and the negative input -3. -/
theorem nextPowerOf2_loop_terminates_iff_witness :
    nextPowerOf2_iter (5 : Int).toNat 5 = 0 ∧
    nextPowerOf2_early (-3) = false ∧ nextPowerOf2_iter 7 (-3) ≠ 0 :=
  ⟨(nextPowerOf2_loop_terminates_iff 5).1 (by omega),
    ((nextPowerOf2_loop_terminates_iff (-3)).2 (by omega)).1,
    ((nextPowerOf2_loop_terminates_iff (-3)).2 (by omega)).2 7⟩

/-! ### C1: bounds of the rectangle committed by `drag_continue` -/

/-- The center-drag vertical clamp keeps the delta inside
`[-t0, h - b0]`. -/
lemma clamp_dy_bounds (m : Mgr) (s : DragSess) (dy : Int) (hC : s.state = DRAG_C)
    (ht : 0 ≤ s.t0) (hb : s.b0 ≤ m.h) :
    -s.t0 ≤ clamp_dy m s dy ∧ clamp_dy m s dy ≤ m.h - s.b0 := by
  unfold clamp_dy
  rw [if_pos hC]
  split_ifs <;> omega

/-- The center-drag horizontal clamp keeps the delta inside
`[-l0, w - r0]`. -/
lemma clamp_dx_bounds (m : Mgr) (s : DragSess) (dx : Int) (hC : s.state = DRAG_C)
    (hl : 0 ≤ s.l0) (hr : s.r0 ≤ m.w) :
    -s.l0 ≤ clamp_dx m s dx ∧ clamp_dx m s dx ≤ m.w - s.r0 := by
  unfold clamp_dx
  rw [if_pos hC]
  split_ifs <;> omega

/-- The candidate top edge lies in `[0, h - 1]`, given a valid snapshot, a
centre-clamped delta for a centre drag, and the current-rectangle invariant
for a non-centre drag. -/
lemma cand_top_bounds (m : Mgr) (s : DragSess) (dy : Int)
    (hsv : 0 ≤ s.t0 ∧ s.t0 < s.b0 ∧ s.b0 ≤ m.h)
    (hcv : s.state ≠ DRAG_C → 0 ≤ m.top ∧ m.top ≤ m.h - 1 ∧ 1 ≤ m.bottom ∧ m.bottom ≤ m.h)
    (hdy : s.state = DRAG_C → -s.t0 ≤ dy ∧ dy ≤ m.h - s.b0) :
    0 ≤ cand_top m s dy ∧ cand_top m s dy ≤ m.h - 1 := by
  obtain ⟨h1, h2, h3⟩ := hsv
  by_cases hC : s.state = DRAG_C
  · have hd := hdy hC
    simp only [cand_top]
    split_ifs <;> omega
  · have hc := hcv hC
    simp only [cand_top]
    split_ifs <;> omega

/-- The candidate bottom edge lies in `[0, h]`, and in `[1, h]` for a
non-centre drag. -/
lemma cand_bottom_bounds (m : Mgr) (s : DragSess) (dy : Int)
    (hsv : 0 ≤ s.t0 ∧ s.t0 < s.b0 ∧ s.b0 ≤ m.h)
    (hcv : s.state ≠ DRAG_C → 0 ≤ m.top ∧ m.top ≤ m.h - 1 ∧ 1 ≤ m.bottom ∧ m.bottom ≤ m.h)
    (hdy : s.state = DRAG_C → -s.t0 ≤ dy ∧ dy ≤ m.h - s.b0) :
    0 ≤ cand_bottom m s dy ∧ cand_bottom m s dy ≤ m.h ∧
      (s.state ≠ DRAG_C → 1 ≤ cand_bottom m s dy) := by
  obtain ⟨h1, h2, h3⟩ := hsv
  by_cases hC : s.state = DRAG_C
  · have hd := hdy hC
    simp only [cand_bottom]
    split_ifs <;> omega
  · have hc := hcv hC
    simp only [cand_bottom]
    split_ifs <;> omega

/-- The candidate left edge lies in `[0, w - 1]`. -/
lemma cand_left_bounds (m : Mgr) (s : DragSess) (dx : Int)
    (hsh : 0 ≤ s.l0 ∧ s.l0 < s.r0 ∧ s.r0 ≤ m.w)
    (hch : s.state ≠ DRAG_C → 0 ≤ m.left ∧ m.left ≤ m.w - 1 ∧ 1 ≤ m.right ∧ m.right ≤ m.w)
    (hdx : s.state = DRAG_C → -s.l0 ≤ dx ∧ dx ≤ m.w - s.r0) :
    0 ≤ cand_left m s dx ∧ cand_left m s dx ≤ m.w - 1 := by
  obtain ⟨h1, h2, h3⟩ := hsh
  by_cases hC : s.state = DRAG_C
  · have hd := hdx hC
    simp only [cand_left]
    split_ifs <;> omega
  · have hc := hch hC
    simp only [cand_left]
    split_ifs <;> omega

/-- The candidate right edge lies in `[0, w]`, and in `[1, w]` for a
non-centre drag. -/
lemma cand_right_bounds (m : Mgr) (s : DragSess) (dx : Int)
    (hsh : 0 ≤ s.l0 ∧ s.l0 < s.r0 ∧ s.r0 ≤ m.w)
    (hch : s.state ≠ DRAG_C → 0 ≤ m.left ∧ m.left ≤ m.w - 1 ∧ 1 ≤ m.right ∧ m.right ≤ m.w)
    (hdx : s.state = DRAG_C → -s.l0 ≤ dx ∧ dx ≤ m.w - s.r0) :
    0 ≤ cand_right m s dx ∧ cand_right m s dx ≤ m.w ∧
      (s.state ≠ DRAG_C → 1 ≤ cand_right m s dx) := by
  obtain ⟨h1, h2, h3⟩ := hsh
  by_cases hC : s.state = DRAG_C
  · have hd := hdx hC
    simp only [cand_right]
    split_ifs <;> omega
  · have hc := hch hC
    simp only [cand_right]
    split_ifs <;> omega

/-- Committing candidate edges through `set_crop` keeps the anchored edges
in range and passes the far edges through as maxima; with granularity 1 the
anchored edges are the minima. -/
lemma set_crop_fields (m : Mgr) (t l r b : Int)
    (hry : 1 ≤ m.round_y) (hryh : m.round_y ≤ m.h)
    (hrx : 1 ≤ m.round_x) (hrxw : m.round_x ≤ m.w)
    (ht0 : 0 ≤ t) (hth : t ≤ m.h - 1) (hb0 : 0 ≤ b) (hbh : b ≤ m.h)
    (hl0 : 0 ≤ l) (hlw : l ≤ m.w - 1) (hr0 : 0 ≤ r) (hrw : r ≤ m.w) :
    (0 ≤ (set_crop m t l r b).top ∧ (set_crop m t l r b).top ≤ m.h - 1) ∧
    (set_crop m t l r b).bottom = max t b ∧
    (0 ≤ (set_crop m t l r b).left ∧ (set_crop m t l r b).left ≤ m.w - 1) ∧
    (set_crop m t l r b).right = max l r ∧
    (m.round_y = 1 → (set_crop m t l r b).top = min t b) ∧
    (m.round_x = 1 → (set_crop m t l r b).left = min l r) := by
  have htop : (set_crop m t l r b).top =
      (fix t b m.h m.round_y (m.rotation == 3 || m.rotation == 8)).1 := rfl
  have hbot : (set_crop m t l r b).bottom =
      (fix t b m.h m.round_y (m.rotation == 3 || m.rotation == 8)).2 := rfl
  have hleft : (set_crop m t l r b).left =
      (fix l r m.w m.round_x (m.rotation == 3 || m.rotation == 6)).1 := rfl
  have hright : (set_crop m t l r b).right =
      (fix l r m.w m.round_x (m.rotation == 3 || m.rotation == 6)).2 := rfl
  have h0tb : 0 ≤ min t b := le_min ht0 hb0
  have h0lr : 0 ≤ min l r := le_min hl0 hr0
  refine ⟨?_, ?_, ?_, ?_, ?_, ?_⟩
  · rw [htop]
    cases hR : (m.rotation == 3 || m.rotation == 8)
    · obtain ⟨hle, _, hnn⟩ := fix_forward_char t b m.h m.round_y (by omega)
      have hmin : min t b ≤ m.h - 1 := le_trans (min_le_left _ _) hth
      exact ⟨hnn h0tb, by omega⟩
    · obtain ⟨hnn, hor, _⟩ := fix_reverse_char t b m.h m.round_y (by omega) h0tb
      have hmin : min t b ≤ m.h - 1 := le_trans (min_le_left _ _) hth
      exact ⟨hnn, by omega⟩
  · rw [hbot, fix_snd]
  · rw [hleft]
    cases hR : (m.rotation == 3 || m.rotation == 6)
    · obtain ⟨hle, _, hnn⟩ := fix_forward_char l r m.w m.round_x (by omega)
      have hmin : min l r ≤ m.w - 1 := le_trans (min_le_left _ _) hlw
      exact ⟨hnn h0lr, by omega⟩
    · obtain ⟨hnn, hor, _⟩ := fix_reverse_char l r m.w m.round_x (by omega) h0lr
      have hmin : min l r ≤ m.w - 1 := le_trans (min_le_left _ _) hlw
      exact ⟨hnn, by omega⟩
  · rw [hright, fix_snd]
  · intro h1
    rw [htop, h1, fix_one t b m.h _ h0tb]
  · intro h1
    rw [hleft, h1, fix_one l r m.w _ h0lr]

/-- C1 counterexample: on a 10x10 image with the full rectangle
`(0, 0, 10, 10)` (granularity 1, rotation 1), a top-edge drag
(`DRAG_T`) with pointer delta `dy = 100` commits `top = 9 = bottom`:
the candidate bottom `10` is first clamped to `h - 1 = 9` and the dragged
top is then only forced below the OLD bottom (`min(bottom - 1, new_top)`),
so the two edges collide.  This refutes the claimed strict
`top < bottom`. -/
theorem drag_continue_collapses_edges :
    (drag_continue ⟨10, 10, 1, 1, 1, 0, 0, 10, 10, 0, 0, 0, 0, 0, 0⟩
        ⟨0, 0, 10, 10, DRAG_T, false⟩ 0 100).top = 9 ∧
    (drag_continue ⟨10, 10, 1, 1, 1, 0, 0, 10, 10, 0, 0, 0, 0, 0, 0⟩
        ⟨0, 0, 10, 10, DRAG_T, false⟩ 0 100).bottom = 9 ∧
    ¬ ((drag_continue ⟨10, 10, 1, 1, 1, 0, 0, 10, 10, 0, 0, 0, 0, 0, 0⟩
        ⟨0, 0, 10, 10, DRAG_T, false⟩ 0 100).top <
      (drag_continue ⟨10, 10, 1, 1, 1, 0, 0, 10, 10, 0, 0, 0, 0, 0, 0⟩
        ⟨0, 0, 10, 10, DRAG_T, false⟩ 0 100).bottom) := by decide

/-- C1 (amended): for every drag session whose snapshot rectangle satisfies
`0 ≤ left < right ≤ width` and `0 ≤ top < bottom ≤ height`, every call to
`drag_continue` (every drag kind, every pointer delta, aspect-locked or
not) commits a rectangle whose four edges lie inside
`[0, width] x [0, height]`, provided each rounding granularity is at least
1 and at most the corresponding dimension, and provided (for non-centre
drags) the current rectangle satisfies the invariant
`0 ≤ top ≤ height - 1`, `1 ≤ bottom ≤ height`, `0 ≤ left ≤ width - 1`,
`1 ≤ right ≤ width` - which the committed rectangle of a non-centre call
again satisfies, so the bounds hold at every call of a session.  The
original strict `left < right`, `top < bottom` does NOT survive: edges can
collide, and only the weak order `left ≤ right`, `top ≤ bottom` holds, and
only when the axis granularity is 1 (a reverse-anchored axis with a larger
granularity can even invert an unaligned pair). -/
theorem drag_continue_bounds (m : Mgr) (s : DragSess) (dx0 dy0 : Int)
    (hsv : 0 ≤ s.t0 ∧ s.t0 < s.b0 ∧ s.b0 ≤ m.h)
    (hsh : 0 ≤ s.l0 ∧ s.l0 < s.r0 ∧ s.r0 ≤ m.w)
    (hry : 1 ≤ m.round_y) (hryh : m.round_y ≤ m.h)
    (hrx : 1 ≤ m.round_x) (hrxw : m.round_x ≤ m.w)
    (hcv : s.state ≠ DRAG_C → 0 ≤ m.top ∧ m.top ≤ m.h - 1 ∧ 1 ≤ m.bottom ∧ m.bottom ≤ m.h)
    (hch : s.state ≠ DRAG_C → 0 ≤ m.left ∧ m.left ≤ m.w - 1 ∧ 1 ≤ m.right ∧ m.right ≤ m.w) :
    (0 ≤ (drag_continue m s dx0 dy0).top ∧ (drag_continue m s dx0 dy0).top ≤ m.h ∧
     0 ≤ (drag_continue m s dx0 dy0).bottom ∧ (drag_continue m s dx0 dy0).bottom ≤ m.h ∧
     0 ≤ (drag_continue m s dx0 dy0).left ∧ (drag_continue m s dx0 dy0).left ≤ m.w ∧
     0 ≤ (drag_continue m s dx0 dy0).right ∧ (drag_continue m s dx0 dy0).right ≤ m.w) ∧
    (s.state ≠ DRAG_C →
      (0 ≤ (drag_continue m s dx0 dy0).top ∧ (drag_continue m s dx0 dy0).top ≤ m.h - 1 ∧
       1 ≤ (drag_continue m s dx0 dy0).bottom ∧ (drag_continue m s dx0 dy0).bottom ≤ m.h) ∧
      (0 ≤ (drag_continue m s dx0 dy0).left ∧ (drag_continue m s dx0 dy0).left ≤ m.w - 1 ∧
       1 ≤ (drag_continue m s dx0 dy0).right ∧ (drag_continue m s dx0 dy0).right ≤ m.w)) ∧
    (m.round_y = 1 → (drag_continue m s dx0 dy0).top ≤ (drag_continue m s dx0 dy0).bottom) ∧
    (m.round_x = 1 → (drag_continue m s dx0 dy0).left ≤ (drag_continue m s dx0 dy0).right) := by
  have hdyB : s.state = DRAG_C →
      -s.t0 ≤ clamp_dy m s (drag_deltas s dx0 dy0).2 ∧
        clamp_dy m s (drag_deltas s dx0 dy0).2 ≤ m.h - s.b0 :=
    fun hC => clamp_dy_bounds m s _ hC hsv.1 hsv.2.2
  have hdxB : s.state = DRAG_C →
      -s.l0 ≤ clamp_dx m s (drag_deltas s dx0 dy0).1 ∧
        clamp_dx m s (drag_deltas s dx0 dy0).1 ≤ m.w - s.r0 :=
    fun hC => clamp_dx_bounds m s _ hC hsh.1 hsh.2.2
  have ct := cand_top_bounds m s (clamp_dy m s (drag_deltas s dx0 dy0).2) hsv hcv hdyB
  have cb := cand_bottom_bounds m s (clamp_dy m s (drag_deltas s dx0 dy0).2) hsv hcv hdyB
  have cl := cand_left_bounds m s (clamp_dx m s (drag_deltas s dx0 dy0).1) hsh hch hdxB
  have cr := cand_right_bounds m s (clamp_dx m s (drag_deltas s dx0 dy0).1) hsh hch hdxB
  have e : drag_continue m s dx0 dy0 =
      set_crop m (cand_top m s (clamp_dy m s (drag_deltas s dx0 dy0).2))
        (cand_left m s (clamp_dx m s (drag_deltas s dx0 dy0).1))
        (cand_right m s (clamp_dx m s (drag_deltas s dx0 dy0).1))
        (cand_bottom m s (clamp_dy m s (drag_deltas s dx0 dy0).2)) := rfl
  obtain ⟨sc1, sc2, sc3, sc4, sc5, sc6⟩ := set_crop_fields m
    (cand_top m s (clamp_dy m s (drag_deltas s dx0 dy0).2))
    (cand_left m s (clamp_dx m s (drag_deltas s dx0 dy0).1))
    (cand_right m s (clamp_dx m s (drag_deltas s dx0 dy0).1))
    (cand_bottom m s (clamp_dy m s (drag_deltas s dx0 dy0).2))
    hry hryh hrx hrxw ct.1 ct.2 cb.1 cb.2.1 cl.1 cl.2 cr.1 cr.2.1
  rw [e]
  refine ⟨⟨sc1.1, by omega, ?_, ?_, sc3.1, by omega, ?_, ?_⟩, ?_, ?_, ?_⟩
  · rw [sc2]; omega
  · rw [sc2]; omega
  · rw [sc4]; omega
  · rw [sc4]; omega
  · intro hC
    have hb1 := cb.2.2 hC
    have hr1 := cr.2.2 hC
    refine ⟨⟨sc1.1, sc1.2, ?_, ?_⟩, ⟨sc3.1, sc3.2, ?_, ?_⟩⟩
    · rw [sc2]; omega
    · rw [sc2]; omega
    · rw [sc4]; omega
    · rw [sc4]; omega
  · intro h1
    rw [sc5 h1, sc2]
    exact min_le_max
  · intro h1
    rw [sc6 h1, sc4]
    exact min_le_max

/-- Witness for C1 (amended): a bottom-right drag on a 10x10 image with the
full rectangle, granularity 1, delta (3, -4). -/
theorem drag_continue_bounds_witness :
    (0 ≤ (drag_continue ⟨10, 10, 1, 1, 1, 2, 2, 9, 9, 0, 0, 0, 0, 0, 0⟩
        ⟨2, 2, 9, 9, DRAG_BR, false⟩ 3 (-4)).top ∧
     (drag_continue ⟨10, 10, 1, 1, 1, 2, 2, 9, 9, 0, 0, 0, 0, 0, 0⟩
        ⟨2, 2, 9, 9, DRAG_BR, false⟩ 3 (-4)).top ≤ 10 ∧
     0 ≤ (drag_continue ⟨10, 10, 1, 1, 1, 2, 2, 9, 9, 0, 0, 0, 0, 0, 0⟩
        ⟨2, 2, 9, 9, DRAG_BR, false⟩ 3 (-4)).bottom ∧
     (drag_continue ⟨10, 10, 1, 1, 1, 2, 2, 9, 9, 0, 0, 0, 0, 0, 0⟩
        ⟨2, 2, 9, 9, DRAG_BR, false⟩ 3 (-4)).bottom ≤ 10 ∧
     0 ≤ (drag_continue ⟨10, 10, 1, 1, 1, 2, 2, 9, 9, 0, 0, 0, 0, 0, 0⟩
        ⟨2, 2, 9, 9, DRAG_BR, false⟩ 3 (-4)).left ∧
     (drag_continue ⟨10, 10, 1, 1, 1, 2, 2, 9, 9, 0, 0, 0, 0, 0, 0⟩
        ⟨2, 2, 9, 9, DRAG_BR, false⟩ 3 (-4)).left ≤ 10 ∧
     0 ≤ (drag_continue ⟨10, 10, 1, 1, 1, 2, 2, 9, 9, 0, 0, 0, 0, 0, 0⟩
        ⟨2, 2, 9, 9, DRAG_BR, false⟩ 3 (-4)).right ∧
     (drag_continue ⟨10, 10, 1, 1, 1, 2, 2, 9, 9, 0, 0, 0, 0, 0, 0⟩
        ⟨2, 2, 9, 9, DRAG_BR, false⟩ 3 (-4)).right ≤ 10) ∧
    ((1 : Int) = 1 →
      (drag_continue ⟨10, 10, 1, 1, 1, 2, 2, 9, 9, 0, 0, 0, 0, 0, 0⟩
        ⟨2, 2, 9, 9, DRAG_BR, false⟩ 3 (-4)).top ≤
      (drag_continue ⟨10, 10, 1, 1, 1, 2, 2, 9, 9, 0, 0, 0, 0, 0, 0⟩
        ⟨2, 2, 9, 9, DRAG_BR, false⟩ 3 (-4)).bottom) := by
  obtain ⟨hb, _hi, hoy, _hox⟩ := drag_continue_bounds
    ⟨10, 10, 1, 1, 1, 2, 2, 9, 9, 0, 0, 0, 0, 0, 0⟩ ⟨2, 2, 9, 9, DRAG_BR, false⟩ 3 (-4)
    (by refine ⟨by decide, by decide, by decide⟩)
    (by refine ⟨by decide, by decide, by decide⟩)
    (by decide) (by decide) (by decide) (by decide)
    (fun _ => by refine ⟨by decide, by decide, by decide, by decide⟩)
    (fun _ => by refine ⟨by decide, by decide, by decide, by decide⟩)
  exact ⟨hb, fun h => hoy h⟩

/-! ### C2: aspect preservation of a locked corner drag -/

/-- The committed rectangle `(t, l, r, b)` has the same aspect ratio as the
snapshot rectangle `(t0, l0, r0, b0)` up to one rounding step: the
cross-product deviation `|width' * height0 - height' * width0|` is at most
`max(width0, height0) / 2`. -/
def aspect_within_tolerance (t0 l0 r0 b0 t l r b : Int) : Prop :=
  2 * |(r - l) * (b0 - t0) - (b - t) * (r0 - l0)| ≤ max (r0 - l0) (b0 - t0)

/-- No clamp of `drag_continue` fires: for the active corner, each moved
edge stays inside the image and on its own side of the opposite edge, and
each unmoved far edge is off the `w-1` / `h-1` boundary clamp. -/
def corner_interior (m : Mgr) (s : DragSess) (dx dy : Int) : Prop :=
  (s.state = DRAG_TL →
    0 ≤ s.t0 + dy ∧ s.t0 + dy ≤ s.b0 - 1 ∧ s.b0 ≤ m.h - 1 ∧
    0 ≤ s.l0 + dx ∧ s.l0 + dx ≤ s.r0 - 1 ∧ s.r0 ≤ m.w - 1) ∧
  (s.state = DRAG_TR →
    0 ≤ s.t0 + dy ∧ s.t0 + dy ≤ s.b0 - 1 ∧ s.b0 ≤ m.h - 1 ∧
    s.l0 + 1 ≤ s.r0 + dx ∧ s.r0 + dx ≤ m.w - 1) ∧
  (s.state = DRAG_BL →
    s.t0 + 1 ≤ s.b0 + dy ∧ s.b0 + dy ≤ m.h - 1 ∧
    0 ≤ s.l0 + dx ∧ s.l0 + dx ≤ s.r0 - 1 ∧ s.r0 ≤ m.w - 1) ∧
  (s.state = DRAG_BR →
    s.t0 + 1 ≤ s.b0 + dy ∧ s.b0 + dy ≤ m.h - 1 ∧
    s.l0 + 1 ≤ s.r0 + dx ∧ s.r0 + dx ≤ m.w - 1)

/-- Rounding a rational quotient to the nearest integer perturbs the
cross-product by at most half the (positive) denominator. -/
lemma round_div_cross (u v : Int) (hv : 0 < v) :
    2 * |round ((u : ℚ) / (v : ℚ)) * v - u| ≤ v := by
  have hvQ : (0 : ℚ) < (v : ℚ) := by exact_mod_cast hv
  have h := abs_sub_round ((u : ℚ) / (v : ℚ))
  have e : ((round ((u : ℚ) / (v : ℚ)) : ℤ) - (u : ℚ) / v) * v =
      (round ((u : ℚ) / (v : ℚ)) : ℤ) * v - u := by
    rw [sub_mul, div_mul_cancel₀ _ hvQ.ne']
  have key : |((round ((u : ℚ) / (v : ℚ)) : ℤ) : ℚ) * v - u| ≤ (v : ℚ) / 2 := by
    rw [← e, abs_mul, abs_of_pos hvQ, abs_sub_comm]
    calc |(u : ℚ) / v - ((round ((u : ℚ) / (v : ℚ)) : ℤ) : ℚ)| * v
        ≤ (1 / 2) * v := mul_le_mul_of_nonneg_right h hvQ.le
      _ = (v : ℚ) / 2 := by ring
  have key2 : 2 * |((round ((u : ℚ) / (v : ℚ)) : ℤ) : ℚ) * v - u| ≤ (v : ℚ) := by
    linarith
  exact_mod_cast key2

/-- The aspect-lock block of `drag_continue` keeps the cross-product of the
adjusted deltas within half the larger snapshot dimension: with
`W = r0 - l0`, `H = b0 - t0`, for the positively-correlated corners
`2 * |dy * W - dx * H| ≤ max W H`, and for `DRAG_TR` / `DRAG_BL` (where the
ratio is negated) `2 * |dy * W + dx * H| ≤ max W H`. -/
lemma drag_deltas_cross (s : DragSess) (dx0 dy0 : Int) (hfix : s.fixed_ratio = true)
    (hW : 0 < s.r0 - s.l0) (hH : 0 < s.b0 - s.t0) :
    (¬(s.state = DRAG_TR ∨ s.state = DRAG_BL) →
      2 * |(drag_deltas s dx0 dy0).2 * (s.r0 - s.l0) -
            (drag_deltas s dx0 dy0).1 * (s.b0 - s.t0)| ≤
        max (s.r0 - s.l0) (s.b0 - s.t0)) ∧
    ((s.state = DRAG_TR ∨ s.state = DRAG_BL) →
      2 * |(drag_deltas s dx0 dy0).2 * (s.r0 - s.l0) +
            (drag_deltas s dx0 dy0).1 * (s.b0 - s.t0)| ≤
        max (s.r0 - s.l0) (s.b0 - s.t0)) := by
  constructor
  · intro hno
    have e : drag_deltas s dx0 dy0 =
        (if |(dx0 : ℚ) / (((s.r0 - s.l0 : Int) : ℚ) / ((s.b0 - s.t0 : Int) : ℚ))| >
            |(dy0 : ℚ)| then
          (dx0, round ((dx0 : ℚ) / (((s.r0 - s.l0 : Int) : ℚ) / ((s.b0 - s.t0 : Int) : ℚ))))
        else
          (round ((dy0 : ℚ) * (((s.r0 - s.l0 : Int) : ℚ) / ((s.b0 - s.t0 : Int) : ℚ))), dy0)) := by
      simp only [drag_deltas, hfix, if_true, if_neg hno]
    rw [e]
    by_cases hbr : |(dx0 : ℚ) / (((s.r0 - s.l0 : Int) : ℚ) / ((s.b0 - s.t0 : Int) : ℚ))| >
        |(dy0 : ℚ)|
    · rw [if_pos hbr]
      dsimp only
      have harg : (dx0 : ℚ) / (((s.r0 - s.l0 : Int) : ℚ) / ((s.b0 - s.t0 : Int) : ℚ)) =
          ((dx0 * (s.b0 - s.t0) : Int) : ℚ) / ((s.r0 - s.l0 : Int) : ℚ) := by
        push_cast
        rw [div_div_eq_mul_div]
      rw [harg]
      calc 2 * |round (((dx0 * (s.b0 - s.t0) : Int) : ℚ) / ((s.r0 - s.l0 : Int) : ℚ)) *
            (s.r0 - s.l0) - dx0 * (s.b0 - s.t0)|
          ≤ s.r0 - s.l0 := round_div_cross (dx0 * (s.b0 - s.t0)) (s.r0 - s.l0) hW
        _ ≤ max (s.r0 - s.l0) (s.b0 - s.t0) := le_max_left _ _
    · rw [if_neg hbr]
      dsimp only
      have harg : (dy0 : ℚ) * (((s.r0 - s.l0 : Int) : ℚ) / ((s.b0 - s.t0 : Int) : ℚ)) =
          ((dy0 * (s.r0 - s.l0) : Int) : ℚ) / ((s.b0 - s.t0 : Int) : ℚ) := by
        push_cast
        rw [mul_div_assoc]
      rw [harg, abs_sub_comm]
      calc 2 * |round (((dy0 * (s.r0 - s.l0) : Int) : ℚ) / ((s.b0 - s.t0 : Int) : ℚ)) *
            (s.b0 - s.t0) - dy0 * (s.r0 - s.l0)|
          ≤ s.b0 - s.t0 := round_div_cross (dy0 * (s.r0 - s.l0)) (s.b0 - s.t0) hH
        _ ≤ max (s.r0 - s.l0) (s.b0 - s.t0) := le_max_right _ _
  · intro hyes
    have e : drag_deltas s dx0 dy0 =
        (if |(dx0 : ℚ) / (-(((s.r0 - s.l0 : Int) : ℚ) / ((s.b0 - s.t0 : Int) : ℚ)))| >
            |(dy0 : ℚ)| then
          (dx0, round ((dx0 : ℚ) /
            (-(((s.r0 - s.l0 : Int) : ℚ) / ((s.b0 - s.t0 : Int) : ℚ)))))
        else
          (round ((dy0 : ℚ) *
            (-(((s.r0 - s.l0 : Int) : ℚ) / ((s.b0 - s.t0 : Int) : ℚ)))), dy0)) := by
      simp only [drag_deltas, hfix, if_true, if_pos hyes]
    rw [e]
    by_cases hbr : |(dx0 : ℚ) /
        (-(((s.r0 - s.l0 : Int) : ℚ) / ((s.b0 - s.t0 : Int) : ℚ)))| > |(dy0 : ℚ)|
    · rw [if_pos hbr]
      dsimp only
      have harg : (dx0 : ℚ) / (-(((s.r0 - s.l0 : Int) : ℚ) / ((s.b0 - s.t0 : Int) : ℚ))) =
          ((-(dx0 * (s.b0 - s.t0)) : Int) : ℚ) / ((s.r0 - s.l0 : Int) : ℚ) := by
        push_cast
        rw [div_neg, div_div_eq_mul_div, neg_div]
      rw [harg]
      have hb := round_div_cross (-(dx0 * (s.b0 - s.t0))) (s.r0 - s.l0) hW
      rw [sub_neg_eq_add] at hb
      calc 2 * |round (((-(dx0 * (s.b0 - s.t0)) : Int) : ℚ) / ((s.r0 - s.l0 : Int) : ℚ)) *
            (s.r0 - s.l0) + dx0 * (s.b0 - s.t0)|
          ≤ s.r0 - s.l0 := hb
        _ ≤ max (s.r0 - s.l0) (s.b0 - s.t0) := le_max_left _ _
    · rw [if_neg hbr]
      dsimp only
      have harg : (dy0 : ℚ) * (-(((s.r0 - s.l0 : Int) : ℚ) / ((s.b0 - s.t0 : Int) : ℚ))) =
          ((-(dy0 * (s.r0 - s.l0)) : Int) : ℚ) / ((s.b0 - s.t0 : Int) : ℚ) := by
        push_cast
        ring
      rw [harg]
      have hb := round_div_cross (-(dy0 * (s.r0 - s.l0))) (s.b0 - s.t0) hH
      rw [sub_neg_eq_add] at hb
      have hcomm : (dy0 : Int) * (s.r0 - s.l0) +
          round (((-(dy0 * (s.r0 - s.l0)) : Int) : ℚ) / ((s.b0 - s.t0 : Int) : ℚ)) *
            (s.b0 - s.t0) =
          round (((-(dy0 * (s.r0 - s.l0)) : Int) : ℚ) / ((s.b0 - s.t0 : Int) : ℚ)) *
            (s.b0 - s.t0) + dy0 * (s.r0 - s.l0) := by ring
      rw [hcomm]
      calc 2 * |round (((-(dy0 * (s.r0 - s.l0)) : Int) : ℚ) / ((s.b0 - s.t0 : Int) : ℚ)) *
            (s.b0 - s.t0) + dy0 * (s.r0 - s.l0)|
          ≤ s.b0 - s.t0 := hb
        _ ≤ max (s.r0 - s.l0) (s.b0 - s.t0) := le_max_right _ _

/-- For a non-centre drag the horizontal delta is not clamped. -/
lemma clamp_dx_id (m : Mgr) (s : DragSess) (dx : Int) (hC : s.state ≠ DRAG_C) :
    clamp_dx m s dx = dx := by
  unfold clamp_dx
  rw [if_neg hC]

/-- For a non-centre drag the vertical delta is not clamped. -/
lemma clamp_dy_id (m : Mgr) (s : DragSess) (dy : Int) (hC : s.state ≠ DRAG_C) :
    clamp_dy m s dy = dy := by
  unfold clamp_dy
  rw [if_neg hC]

/-- A dragged top edge that stays inside `[0, bottom - 1]` is committed
unchanged. -/
lemma cand_top_moved (m : Mgr) (s : DragSess) (dy : Int)
    (hmem : s.state = DRAG_TL ∨ s.state = DRAG_T ∨ s.state = DRAG_TR)
    (h0 : 0 ≤ s.t0 + dy) (hlt : s.t0 + dy ≤ m.bottom - 1) :
    cand_top m s dy = s.t0 + dy := by
  have hC : s.state ≠ DRAG_C := by
    rcases hmem with h | h | h <;> rw [h] <;> decide
  have hmem4 : s.state = DRAG_TL ∨ s.state = DRAG_T ∨ s.state = DRAG_TR ∨
      s.state = DRAG_C := by tauto
  simp only [cand_top]
  rw [if_pos hmem4, if_neg (by omega : ¬ s.t0 + dy < 0), if_pos hC]
  omega

/-- An unmoved top edge inside `[0, bottom - 1]` is committed unchanged. -/
lemma cand_top_unmoved (m : Mgr) (s : DragSess) (dy : Int)
    (hno : ¬(s.state = DRAG_TL ∨ s.state = DRAG_T ∨ s.state = DRAG_TR ∨ s.state = DRAG_C))
    (h0 : 0 ≤ m.top) (hlt : m.top ≤ m.bottom - 1) :
    cand_top m s dy = m.top := by
  have hC : s.state ≠ DRAG_C := fun h => hno (by tauto)
  simp only [cand_top]
  rw [if_neg hno, if_neg (by omega : ¬ m.top < 0), if_pos hC]
  omega

/-- A dragged bottom edge that stays inside `[top + 1, h - 1]` is committed
unchanged. -/
lemma cand_bottom_moved (m : Mgr) (s : DragSess) (dy : Int)
    (hmem : s.state = DRAG_BL ∨ s.state = DRAG_B ∨ s.state = DRAG_BR)
    (hgt : m.top + 1 ≤ s.b0 + dy) (hlt : s.b0 + dy ≤ m.h - 1) :
    cand_bottom m s dy = s.b0 + dy := by
  have hC : s.state ≠ DRAG_C := by
    rcases hmem with h | h | h <;> rw [h] <;> decide
  have hmem4 : s.state = DRAG_BL ∨ s.state = DRAG_B ∨ s.state = DRAG_BR ∨
      s.state = DRAG_C := by tauto
  simp only [cand_bottom]
  rw [if_pos hmem4, if_neg (by omega : ¬ m.h ≤ s.b0 + dy), if_pos hC]
  omega

/-- An unmoved bottom edge inside `[top + 1, h - 1]` is committed
unchanged. -/
lemma cand_bottom_unmoved (m : Mgr) (s : DragSess) (dy : Int)
    (hno : ¬(s.state = DRAG_BL ∨ s.state = DRAG_B ∨ s.state = DRAG_BR ∨ s.state = DRAG_C))
    (hgt : m.top + 1 ≤ m.bottom) (hlt : m.bottom ≤ m.h - 1) :
    cand_bottom m s dy = m.bottom := by
  have hC : s.state ≠ DRAG_C := fun h => hno (by tauto)
  simp only [cand_bottom]
  rw [if_neg hno, if_neg (by omega : ¬ m.h ≤ m.bottom), if_pos hC]
  omega

/-- A dragged left edge that stays inside `[0, right - 1]` is committed
unchanged. -/
lemma cand_left_moved (m : Mgr) (s : DragSess) (dx : Int)
    (hmem : s.state = DRAG_TL ∨ s.state = DRAG_L ∨ s.state = DRAG_BL)
    (h0 : 0 ≤ s.l0 + dx) (hlt : s.l0 + dx ≤ m.right - 1) :
    cand_left m s dx = s.l0 + dx := by
  have hC : s.state ≠ DRAG_C := by
    rcases hmem with h | h | h <;> rw [h] <;> decide
  have hmem4 : s.state = DRAG_TL ∨ s.state = DRAG_L ∨ s.state = DRAG_BL ∨
      s.state = DRAG_C := by tauto
  simp only [cand_left]
  rw [if_pos hmem4, if_neg (by omega : ¬ s.l0 + dx < 0), if_pos hC]
  omega

/-- An unmoved left edge inside `[0, right - 1]` is committed unchanged. -/
lemma cand_left_unmoved (m : Mgr) (s : DragSess) (dx : Int)
    (hno : ¬(s.state = DRAG_TL ∨ s.state = DRAG_L ∨ s.state = DRAG_BL ∨ s.state = DRAG_C))
    (h0 : 0 ≤ m.left) (hlt : m.left ≤ m.right - 1) :
    cand_left m s dx = m.left := by
  have hC : s.state ≠ DRAG_C := fun h => hno (by tauto)
  simp only [cand_left]
  rw [if_neg hno, if_neg (by omega : ¬ m.left < 0), if_pos hC]
  omega

/-- A dragged right edge that stays inside `[left + 1, w - 1]` is committed
unchanged. -/
lemma cand_right_moved (m : Mgr) (s : DragSess) (dx : Int)
    (hmem : s.state = DRAG_TR ∨ s.state = DRAG_R ∨ s.state = DRAG_BR)
    (hgt : m.left + 1 ≤ s.r0 + dx) (hlt : s.r0 + dx ≤ m.w - 1) :
    cand_right m s dx = s.r0 + dx := by
  have hC : s.state ≠ DRAG_C := by
    rcases hmem with h | h | h <;> rw [h] <;> decide
  have hmem4 : s.state = DRAG_TR ∨ s.state = DRAG_R ∨ s.state = DRAG_BR ∨
      s.state = DRAG_C := by tauto
  simp only [cand_right]
  rw [if_pos hmem4, if_neg (by omega : ¬ m.w ≤ s.r0 + dx), if_pos hC]
  omega

/-- An unmoved right edge inside `[left + 1, w - 1]` is committed
unchanged. -/
lemma cand_right_unmoved (m : Mgr) (s : DragSess) (dx : Int)
    (hno : ¬(s.state = DRAG_TR ∨ s.state = DRAG_R ∨ s.state = DRAG_BR ∨ s.state = DRAG_C))
    (hgt : m.left + 1 ≤ m.right) (hlt : m.right ≤ m.w - 1) :
    cand_right m s dx = m.right := by
  have hC : s.state ≠ DRAG_C := fun h => hno (by tauto)
  simp only [cand_right]
  rw [if_neg hno, if_neg (by omega : ¬ m.w ≤ m.right), if_pos hC]
  omega

/-- With both granularities 1, `set_crop` just sorts each axis pair. -/
lemma set_crop_one_fields (m : Mgr) (t l r b : Int)
    (hry : m.round_y = 1) (hrx : m.round_x = 1)
    (h0tb : 0 ≤ min t b) (h0lr : 0 ≤ min l r) :
    (set_crop m t l r b).top = min t b ∧ (set_crop m t l r b).bottom = max t b ∧
    (set_crop m t l r b).left = min l r ∧ (set_crop m t l r b).right = max l r := by
  have htop : (set_crop m t l r b).top =
      (fix t b m.h m.round_y (m.rotation == 3 || m.rotation == 8)).1 := rfl
  have hbot : (set_crop m t l r b).bottom =
      (fix t b m.h m.round_y (m.rotation == 3 || m.rotation == 8)).2 := rfl
  have hleft : (set_crop m t l r b).left =
      (fix l r m.w m.round_x (m.rotation == 3 || m.rotation == 6)).1 := rfl
  have hright : (set_crop m t l r b).right =
      (fix l r m.w m.round_x (m.rotation == 3 || m.rotation == 6)).2 := rfl
  refine ⟨?_, ?_, ?_, ?_⟩
  · rw [htop, hry, fix_one t b m.h _ h0tb]
  · rw [hbot, fix_snd]
  · rw [hleft, hrx, fix_one l r m.w _ h0lr]
  · rw [hright, fix_snd]

/-- For a non-centre drag, `drag_continue` is `set_crop` of the four
candidate edges built from the (unclamped) post-aspect-lock deltas. -/
lemma drag_continue_eq (m : Mgr) (s : DragSess) (dx0 dy0 : Int) (hC : s.state ≠ DRAG_C) :
    drag_continue m s dx0 dy0 =
      set_crop m (cand_top m s (drag_deltas s dx0 dy0).2)
        (cand_left m s (drag_deltas s dx0 dy0).1)
        (cand_right m s (drag_deltas s dx0 dy0).1)
        (cand_bottom m s (drag_deltas s dx0 dy0).2) := by
  simp only [drag_continue, drag_continue_core]
  rw [clamp_dx_id m s _ hC, clamp_dy_id m s _ hC]

/-- Core of the aspect-preservation argument: an interior corner drag whose
adjusted deltas satisfy the rounding cross-bound commits a rectangle within
the aspect tolerance. -/
lemma aspect_core (m : Mgr) (s : DragSess) (dx dy : Int)
    (hsync : m.top = s.t0 ∧ m.left = s.l0 ∧ m.right = s.r0 ∧ m.bottom = s.b0)
    (hsv : 0 ≤ s.t0 ∧ s.t0 < s.b0 ∧ s.b0 ≤ m.h)
    (hsh : 0 ≤ s.l0 ∧ s.l0 < s.r0 ∧ s.r0 ≤ m.w)
    (hry : m.round_y = 1) (hrx : m.round_x = 1)
    (hcorner : s.state = DRAG_TL ∨ s.state = DRAG_TR ∨ s.state = DRAG_BL ∨
      s.state = DRAG_BR)
    (hint : corner_interior m s dx dy)
    (hcross1 : ¬(s.state = DRAG_TR ∨ s.state = DRAG_BL) →
      2 * |dy * (s.r0 - s.l0) - dx * (s.b0 - s.t0)| ≤ max (s.r0 - s.l0) (s.b0 - s.t0))
    (hcross2 : (s.state = DRAG_TR ∨ s.state = DRAG_BL) →
      2 * |dy * (s.r0 - s.l0) + dx * (s.b0 - s.t0)| ≤ max (s.r0 - s.l0) (s.b0 - s.t0)) :
    aspect_within_tolerance s.t0 s.l0 s.r0 s.b0
      (set_crop m (cand_top m s dy) (cand_left m s dx) (cand_right m s dx)
        (cand_bottom m s dy)).top
      (set_crop m (cand_top m s dy) (cand_left m s dx) (cand_right m s dx)
        (cand_bottom m s dy)).left
      (set_crop m (cand_top m s dy) (cand_left m s dx) (cand_right m s dx)
        (cand_bottom m s dy)).right
      (set_crop m (cand_top m s dy) (cand_left m s dx) (cand_right m s dx)
        (cand_bottom m s dy)).bottom := by
  obtain ⟨hst, hsl, hsr, hsb⟩ := hsync
  obtain ⟨ht0, htb, hbh⟩ := hsv
  obtain ⟨hl0, hlr, hrw⟩ := hsh
  obtain ⟨hiTL, hiTR, hiBL, hiBR⟩ := hint
  rcases hcorner with hst9 | hst9 | hst9 | hst9
  · -- DRAG_TL
    obtain ⟨h1, h2, h3, h4, h5, h6⟩ := hiTL hst9
    have ect : cand_top m s dy = s.t0 + dy :=
      cand_top_moved m s dy (Or.inl hst9) h1 (by omega)
    have ecb : cand_bottom m s dy = m.bottom :=
      cand_bottom_unmoved m s dy (by rw [hst9]; decide) (by omega) (by omega)
    have ecl : cand_left m s dx = s.l0 + dx :=
      cand_left_moved m s dx (Or.inl hst9) h4 (by omega)
    have ecr : cand_right m s dx = m.right :=
      cand_right_unmoved m s dx (by rw [hst9]; decide) (by omega) (by omega)
    rw [ect, ecb, ecl, ecr]
    obtain ⟨etop, ebot, eleft, eright⟩ :=
      set_crop_one_fields m (s.t0 + dy) (s.l0 + dx) m.right m.bottom hry hrx
        (by omega) (by omega)
    unfold aspect_within_tolerance
    rw [etop, ebot, eleft, eright]
    have emin1 : min (s.t0 + dy) m.bottom = s.t0 + dy := by omega
    have emax1 : max (s.t0 + dy) m.bottom = m.bottom := by omega
    have emin2 : min (s.l0 + dx) m.right = s.l0 + dx := by omega
    have emax2 : max (s.l0 + dx) m.right = m.right := by omega
    rw [emin1, emax1, emin2, emax2, hsb, hsr]
    have hring : (s.r0 - (s.l0 + dx)) * (s.b0 - s.t0) -
        (s.b0 - (s.t0 + dy)) * (s.r0 - s.l0) =
        dy * (s.r0 - s.l0) - dx * (s.b0 - s.t0) := by ring
    rw [hring]
    exact hcross1 (by rw [hst9]; decide)
  · -- DRAG_TR
    obtain ⟨h1, h2, h3, h4, h5⟩ := hiTR hst9
    have ect : cand_top m s dy = s.t0 + dy :=
      cand_top_moved m s dy (Or.inr (Or.inr hst9)) h1 (by omega)
    have ecb : cand_bottom m s dy = m.bottom :=
      cand_bottom_unmoved m s dy (by rw [hst9]; decide) (by omega) (by omega)
    have ecl : cand_left m s dx = m.left :=
      cand_left_unmoved m s dx (by rw [hst9]; decide) (by omega) (by omega)
    have ecr : cand_right m s dx = s.r0 + dx :=
      cand_right_moved m s dx (Or.inl hst9) (by omega) h5
    rw [ect, ecb, ecl, ecr]
    obtain ⟨etop, ebot, eleft, eright⟩ :=
      set_crop_one_fields m (s.t0 + dy) m.left (s.r0 + dx) m.bottom hry hrx
        (by omega) (by omega)
    unfold aspect_within_tolerance
    rw [etop, ebot, eleft, eright]
    have emin1 : min (s.t0 + dy) m.bottom = s.t0 + dy := by omega
    have emax1 : max (s.t0 + dy) m.bottom = m.bottom := by omega
    have emin2 : min m.left (s.r0 + dx) = m.left := by omega
    have emax2 : max m.left (s.r0 + dx) = s.r0 + dx := by omega
    rw [emin1, emax1, emin2, emax2, hsb, hsl]
    have hring : (s.r0 + dx - s.l0) * (s.b0 - s.t0) -
        (s.b0 - (s.t0 + dy)) * (s.r0 - s.l0) =
        dy * (s.r0 - s.l0) + dx * (s.b0 - s.t0) := by ring
    rw [hring]
    exact hcross2 (Or.inl hst9)
  · -- DRAG_BL
    obtain ⟨h1, h2, h3, h4, h5⟩ := hiBL hst9
    have ect : cand_top m s dy = m.top :=
      cand_top_unmoved m s dy (by rw [hst9]; decide) (by omega) (by omega)
    have ecb : cand_bottom m s dy = s.b0 + dy :=
      cand_bottom_moved m s dy (Or.inl hst9) (by omega) h2
    have ecl : cand_left m s dx = s.l0 + dx :=
      cand_left_moved m s dx (Or.inr (Or.inr hst9)) h3 (by omega)
    have ecr : cand_right m s dx = m.right :=
      cand_right_unmoved m s dx (by rw [hst9]; decide) (by omega) (by omega)
    rw [ect, ecb, ecl, ecr]
    obtain ⟨etop, ebot, eleft, eright⟩ :=
      set_crop_one_fields m m.top (s.l0 + dx) m.right (s.b0 + dy) hry hrx
        (by omega) (by omega)
    unfold aspect_within_tolerance
    rw [etop, ebot, eleft, eright]
    have emin1 : min m.top (s.b0 + dy) = m.top := by omega
    have emax1 : max m.top (s.b0 + dy) = s.b0 + dy := by omega
    have emin2 : min (s.l0 + dx) m.right = s.l0 + dx := by omega
    have emax2 : max (s.l0 + dx) m.right = m.right := by omega
    rw [emin1, emax1, emin2, emax2, hst, hsr]
    have hring : (s.r0 - (s.l0 + dx)) * (s.b0 - s.t0) -
        (s.b0 + dy - s.t0) * (s.r0 - s.l0) =
        -(dy * (s.r0 - s.l0) + dx * (s.b0 - s.t0)) := by ring
    rw [hring, abs_neg]
    exact hcross2 (Or.inr hst9)
  · -- DRAG_BR
    obtain ⟨h1, h2, h3, h4⟩ := hiBR hst9
    have ect : cand_top m s dy = m.top :=
      cand_top_unmoved m s dy (by rw [hst9]; decide) (by omega) (by omega)
    have ecb : cand_bottom m s dy = s.b0 + dy :=
      cand_bottom_moved m s dy (Or.inr (Or.inr hst9)) (by omega) h2
    have ecl : cand_left m s dx = m.left :=
      cand_left_unmoved m s dx (by rw [hst9]; decide) (by omega) (by omega)
    have ecr : cand_right m s dx = s.r0 + dx :=
      cand_right_moved m s dx (Or.inr (Or.inr hst9)) (by omega) h4
    rw [ect, ecb, ecl, ecr]
    obtain ⟨etop, ebot, eleft, eright⟩ :=
      set_crop_one_fields m m.top m.left (s.r0 + dx) (s.b0 + dy) hry hrx
        (by omega) (by omega)
    unfold aspect_within_tolerance
    rw [etop, ebot, eleft, eright]
    have emin1 : min m.top (s.b0 + dy) = m.top := by omega
    have emax1 : max m.top (s.b0 + dy) = s.b0 + dy := by omega
    have emin2 : min m.left (s.r0 + dx) = m.left := by omega
    have emax2 : max m.left (s.r0 + dx) = s.r0 + dx := by omega
    rw [emin1, emax1, emin2, emax2, hst, hsl]
    have hring : (s.r0 + dx - s.l0) * (s.b0 - s.t0) -
        (s.b0 + dy - s.t0) * (s.r0 - s.l0) =
        -(dy * (s.r0 - s.l0) - dx * (s.b0 - s.t0)) := by ring
    rw [hring, abs_neg]
    exact hcross1 (by rw [hst9]; decide)

/-- C2 counterexample: a locked bottom-right drag of the square snapshot
`(0, 0, 10, 10)` in a 100x20 image with pointer delta `(80, 80)` runs into
the bottom boundary clamp: the committed rectangle is `(0, 0, 90, 19)` -
width 90 against height 19 although the snapshot ratio is 1 - so the ratio
is NOT preserved within rounding tolerance for all pointer deltas
(`2*|90*10 - 19*10| = 1420 > 10`). -/
theorem drag_continue_aspect_broken :
    ¬ aspect_within_tolerance 0 0 10 10
      (drag_continue ⟨100, 20, 1, 1, 1, 0, 0, 10, 10, 0, 0, 0, 0, 0, 0⟩
        ⟨0, 0, 10, 10, DRAG_BR, true⟩ 80 80).top
      (drag_continue ⟨100, 20, 1, 1, 1, 0, 0, 10, 10, 0, 0, 0, 0, 0, 0⟩
        ⟨0, 0, 10, 10, DRAG_BR, true⟩ 80 80).left
      (drag_continue ⟨100, 20, 1, 1, 1, 0, 0, 10, 10, 0, 0, 0, 0, 0, 0⟩
        ⟨0, 0, 10, 10, DRAG_BR, true⟩ 80 80).right
      (drag_continue ⟨100, 20, 1, 1, 1, 0, 0, 10, 10, 0, 0, 0, 0, 0, 0⟩
        ⟨0, 0, 10, 10, DRAG_BR, true⟩ 80 80).bottom ∧
    (drag_continue ⟨100, 20, 1, 1, 1, 0, 0, 10, 10, 0, 0, 0, 0, 0, 0⟩
        ⟨0, 0, 10, 10, DRAG_BR, true⟩ 80 80).right = 90 ∧
    (drag_continue ⟨100, 20, 1, 1, 1, 0, 0, 10, 10, 0, 0, 0, 0, 0, 0⟩
        ⟨0, 0, 10, 10, DRAG_BR, true⟩ 80 80).bottom = 19 := by
  have hd : drag_deltas ⟨0, 0, 10, 10, DRAG_BR, true⟩ 80 80 = (80, 80) := by
    unfold drag_deltas
    norm_num [DRAG_TR, DRAG_BL, DRAG_BR, round_eq, abs_of_pos, abs_of_nonneg]
  have e : drag_continue ⟨100, 20, 1, 1, 1, 0, 0, 10, 10, 0, 0, 0, 0, 0, 0⟩
      ⟨0, 0, 10, 10, DRAG_BR, true⟩ 80 80 =
      drag_continue_core ⟨100, 20, 1, 1, 1, 0, 0, 10, 10, 0, 0, 0, 0, 0, 0⟩
        ⟨0, 0, 10, 10, DRAG_BR, true⟩ 80 80 := by
    unfold drag_continue
    rw [hd]
  rw [e]
  refine ⟨by unfold aspect_within_tolerance; decide, by decide, by decide⟩

/-- C2 (amended): for every aspect-locked corner drag from a valid snapshot
(the current rectangle still matching the drag-start snapshot, as on the
first `drag_continue`), with both rounding granularities 1, and for every
pointer delta for which none of the boundary or anti-inversion clamps of
`drag_continue` fires (the moved corner stays strictly inside and the
unmoved far edges are off the `w-1`/`h-1` clamp), the committed rectangle
preserves the snapshot aspect ratio within one rounding step:
`2 * |width' * height0 - height' * width0| <= max(width0, height0)`.
Without the interiority proviso the boundary clamps destroy the ratio (see
the counterexample). -/
theorem drag_continue_aspect_locked (m : Mgr) (s : DragSess) (dx0 dy0 : Int)
    (hsync : m.top = s.t0 ∧ m.left = s.l0 ∧ m.right = s.r0 ∧ m.bottom = s.b0)
    (hsv : 0 ≤ s.t0 ∧ s.t0 < s.b0 ∧ s.b0 ≤ m.h)
    (hsh : 0 ≤ s.l0 ∧ s.l0 < s.r0 ∧ s.r0 ≤ m.w)
    (hry : m.round_y = 1) (hrx : m.round_x = 1)
    (hfix : s.fixed_ratio = true)
    (hcorner : s.state = DRAG_TL ∨ s.state = DRAG_TR ∨ s.state = DRAG_BL ∨
      s.state = DRAG_BR)
    (hint : corner_interior m s (drag_deltas s dx0 dy0).1 (drag_deltas s dx0 dy0).2) :
    aspect_within_tolerance s.t0 s.l0 s.r0 s.b0
      (drag_continue m s dx0 dy0).top (drag_continue m s dx0 dy0).left
      (drag_continue m s dx0 dy0).right (drag_continue m s dx0 dy0).bottom := by
  have hC : s.state ≠ DRAG_C := by
    rcases hcorner with h | h | h | h <;> rw [h] <;> decide
  have hWpos : 0 < s.r0 - s.l0 := by omega
  have hHpos : 0 < s.b0 - s.t0 := by omega
  have hcross := drag_deltas_cross s dx0 dy0 hfix hWpos hHpos
  rw [drag_continue_eq m s dx0 dy0 hC]
  exact aspect_core m s (drag_deltas s dx0 dy0).1 (drag_deltas s dx0 dy0).2
    hsync hsv hsh hry hrx hcorner hint hcross.1 hcross.2

/-- Witness for C2 (amended): a locked bottom-right drag of the 10x5
snapshot `(20, 30, 40, 25)` in a 100x100 image with pointer delta `(7, 3)`;
the lock adjusts the delta to `(7, 4)` and the committed rectangle is
`(20, 30, 47, 29)`, within tolerance: `2*|17*5 - 9*10| = 10 <= 10`. -/
theorem drag_continue_aspect_locked_witness :
    aspect_within_tolerance 20 30 40 25
      (drag_continue ⟨100, 100, 1, 1, 1, 20, 30, 40, 25, 0, 0, 0, 0, 0, 0⟩
        ⟨20, 30, 40, 25, DRAG_BR, true⟩ 7 3).top
      (drag_continue ⟨100, 100, 1, 1, 1, 20, 30, 40, 25, 0, 0, 0, 0, 0, 0⟩
        ⟨20, 30, 40, 25, DRAG_BR, true⟩ 7 3).left
      (drag_continue ⟨100, 100, 1, 1, 1, 20, 30, 40, 25, 0, 0, 0, 0, 0, 0⟩
        ⟨20, 30, 40, 25, DRAG_BR, true⟩ 7 3).right
      (drag_continue ⟨100, 100, 1, 1, 1, 20, 30, 40, 25, 0, 0, 0, 0, 0, 0⟩
        ⟨20, 30, 40, 25, DRAG_BR, true⟩ 7 3).bottom := by
  have hd : drag_deltas ⟨20, 30, 40, 25, DRAG_BR, true⟩ 7 3 = (7, 4) := by
    unfold drag_deltas
    norm_num [DRAG_TR, DRAG_BL, DRAG_BR, round_eq, abs_of_pos, abs_of_nonneg]
  exact drag_continue_aspect_locked ⟨100, 100, 1, 1, 1, 20, 30, 40, 25, 0, 0, 0, 0, 0, 0⟩
    ⟨20, 30, 40, 25, DRAG_BR, true⟩ 7 3
    ⟨rfl, rfl, rfl, rfl⟩ (by decide) (by decide) rfl rfl rfl
    (Or.inr (Or.inr (Or.inr rfl)))
    (by rw [hd]; unfold corner_interior; decide)

end Cropgui
